import Mathlib

/-!
Shallow embedding of `src/pa1/src/main.rs` (scanparse): a lexical scanner and
an LL(1) recursive-descent parser for arithmetic expressions, together with
proofs of the specified properties.

The scanner's cursor-into-a-`Vec<char>` state is modelled by the remaining
`List Char`; the parser's cursor-into-a-`Vec<TOKEN>` state is modelled by the
remaining `List TOKEN`.  Both cursors in the source only ever move forward, so
the remaining-suffix representation is faithful.  `process::exit(1)` in the
source is modelled by an error value that propagates to the top of the run.
The Rust parser's recursion has no fuel; here each parse function takes a fuel
parameter and a dedicated `timeout` result marks exhaustion, which is proved
unreachable for fuel at least linear in the token count.
-/

/-- The token type, mirroring `enum TOKEN` in the source.  `ERROR` carries no
payload, as in the source (`ERROR(())`). -/
inductive TOKEN where
  | IDENTIFIER : String → TOKEN
  | NUMBER : String → TOKEN
  | PLUS : TOKEN
  | STAR : TOKEN
  | BOPEN : TOKEN
  | BCLOSE : TOKEN
  | ERROR : TOKEN
  | EOF : TOKEN
deriving DecidableEq

/-- Rust's `char::is_whitespace` (the Unicode White_Space property), decided
by the explicit code-point list. -/
def isWhitespaceRust (c : Char) : Bool :=
  decide (c.toNat ∈ ([0x9, 0xA, 0xB, 0xC, 0xD, 0x20, 0x85, 0xA0, 0x1680,
    0x2000, 0x2001, 0x2002, 0x2003, 0x2004, 0x2005, 0x2006, 0x2007, 0x2008,
    0x2009, 0x200A, 0x2028, 0x2029, 0x202F, 0x205F, 0x3000] : List Nat))

/-- The ASCII-letter fragment (`A`–`Z`, `a`–`z`) of Rust's
`char::is_alphabetic`.  The full Unicode Alphabetic property is too large to
transcribe, so the scanner below is parametrized by the alphabetic
classifier: every classifier-dependent lemma is proved for an arbitrary
classifier satisfying `AlphaLike` — which the real `char::is_alphabetic`
does — and this ASCII fragment serves as the executable instance on the
all-ASCII concrete inputs of this development. -/
def isAlphabeticRust (c : Char) : Bool :=
  decide ((65 ≤ c.toNat ∧ c.toNat ≤ 90) ∨ (97 ≤ c.toNat ∧ c.toNat ≤ 122))

/-- Rust's `char::is_ascii_digit`: the ASCII digits `0`–`9`. -/
def isAsciiDigitRust (c : Char) : Bool :=
  decide (48 ≤ c.toNat ∧ c.toNat ≤ 57)

/-- The facts about Rust's `char::is_alphabetic` (the Unicode Alphabetic
property) that the scanner proofs rely on: Alphabetic is disjoint from the
Unicode White_Space set, from the ASCII digits, from the four
operator/parenthesis characters and from the underscore, and it contains the
ASCII letters.  Rust's real predicate satisfies every clause, as does its
ASCII fragment `isAlphabeticRust` (`alphaLike_isAlphabeticRust`); theorems
quantified over an `AlphaLike` classifier therefore cover the program's
actual scanner. -/
def AlphaLike (alpha : Char → Bool) : Prop :=
  (∀ c, isWhitespaceRust c = true → alpha c = false) ∧
  (∀ c, isAsciiDigitRust c = true → alpha c = false) ∧
  alpha '+' = false ∧ alpha '*' = false ∧ alpha '(' = false ∧
  alpha ')' = false ∧ alpha '_' = false ∧
  (∀ c, isAlphabeticRust c = true → alpha c = true)

/-- Source `SCANNER::skip_whitespace`: drop leading whitespace from the remaining
input. -/
def skip_whitespace (cs : List Char) : List Char :=
  cs.dropWhile isWhitespaceRust

/-- Source `SCANNER::collect_while`: starting from the already-consumed `first`
character, greedily consume further characters satisfying `keep`; returns the
collected text and the remaining input. -/
def collect_while (first : Char) (keep : Char → Bool) (cs : List Char) :
    String × List Char :=
  (⟨first :: cs.takeWhile keep⟩, cs.dropWhile keep)

/-- Source `SCANNER::get_next_token`: skip whitespace, then classify the next
character; `none` at end of input.  The alphabetic classifier
(`char::is_alphabetic` in the source) is a parameter; everything else is
concrete. -/
def get_next_token_gen (alpha : Char → Bool) (cs : List Char) :
    Option (TOKEN × List Char) :=
  match skip_whitespace cs with
  | [] => none
  | ch :: rest =>
    some (if ch = '+' then (TOKEN.PLUS, rest)
      else if ch = '*' then (TOKEN.STAR, rest)
      else if ch = '(' then (TOKEN.BOPEN, rest)
      else if ch = ')' then (TOKEN.BCLOSE, rest)
      else if isAsciiDigitRust ch then
        let p := collect_while ch isAsciiDigitRust rest
        (TOKEN.NUMBER p.1, p.2)
      else if alpha ch then
        let p := collect_while ch alpha rest
        (TOKEN.IDENTIFIER p.1, p.2)
      else (TOKEN.ERROR, rest))

/-- Source `SCANNER::get_next_token` at the executable ASCII instance of the
alphabetic classifier. -/
def get_next_token (cs : List Char) : Option (TOKEN × List Char) :=
  get_next_token_gen isAlphabeticRust cs

/-- The loop of `SCANNER::tokenize_the_line`: collect tokens until
`get_next_token` returns `none`.  The Rust loop needs no fuel; here fuel makes
the recursion structural, and `tokenize_loop_fuel` below shows any fuel above
the remaining length gives the same (fuel-free) result. -/
def tokenize_loop_gen (alpha : Char → Bool) : Nat → List Char → List TOKEN
  | 0, _ => []
  | fuel + 1, cs =>
    match get_next_token_gen alpha cs with
    | none => []
    | some (tok, rest) => tok :: tokenize_loop_gen alpha fuel rest

/-- The tokenization loop at the executable ASCII instance. -/
def tokenize_loop (fuel : Nat) (cs : List Char) : List TOKEN :=
  tokenize_loop_gen isAlphabeticRust fuel cs

/-- Source `SCANNER::tokenize_the_line`: all tokens of the line followed by
one `EOF`, with the alphabetic classifier a parameter. -/
def tokenize_the_line_gen (alpha : Char → Bool) (cs : List Char) :
    List TOKEN :=
  tokenize_loop_gen alpha (cs.length + 1) cs ++ [TOKEN.EOF]

/-- Source `SCANNER::tokenize_the_line` at the executable ASCII instance of
the alphabetic classifier. -/
def tokenize_the_line (cs : List Char) : List TOKEN :=
  tokenize_loop (cs.length + 1) cs ++ [TOKEN.EOF]

/-- Parse-tree node, mirroring `struct NODE`: a string label and owned
children.  `NODE::leaf l` is `NODE.node l []`. -/
inductive NODE where
  | node (label : String) (children : List NODE)

/-- The node's label. -/
def NODE.label : NODE → String
  | .node l _ => l

/-- The node's children, in order. -/
def NODE.children : NODE → List NODE
  | .node _ cs => cs

/-- The two fatal parse failures of the source (`process::exit(1)` after the
corresponding diagnostic): a missing closing parenthesis, and an unexpected
token in FACTOR position (carrying the offending token). -/
inductive PErr where
  | missingClose : PErr
  | unexpectedToken : TOKEN → PErr
deriving DecidableEq

/-- Result of a parse function: a node plus the remaining tokens, a fatal
error, or fuel exhaustion (an artifact of the embedding, proved unreachable
for sufficient fuel). -/
inductive PResult where
  | ok : NODE → List TOKEN → PResult
  | err : PErr → PResult
  | timeout : PResult

/-- Source `PARSER::current_token`: the token at the cursor, or `EOF` past the
end. -/
def current_token : List TOKEN → TOKEN
  | [] => TOKEN.EOF
  | t :: _ => t

/-- The five grammar non-terminals, one per parse function of the source. -/
inductive NT where
  | expr | exprdash | term | termdash | factor
deriving DecidableEq

/-- The mutually recursive body of `parse_expr` / `parse_exprdash` /
`parse_term` / `parse_termdash` / `parse_factor`, merged into one function
over the non-terminal tag so that the recursion is structural on the fuel.
Each branch transcribes the corresponding source function. -/
def parseNT : Nat → NT → List TOKEN → PResult
  | 0, _, _ => .timeout
  | fuel + 1, nt, ts =>
    match nt with
    | .expr =>
      match parseNT fuel .term ts with
      | .ok t ts₁ =>
        match parseNT fuel .exprdash ts₁ with
        | .ok d ts₂ => .ok (NODE.node "EXPR" [t, d]) ts₂
        | .err e => .err e
        | .timeout => .timeout
      | .err e => .err e
      | .timeout => .timeout
    | .exprdash =>
      if current_token ts = TOKEN.PLUS then
        match parseNT fuel .term ts.tail with
        | .ok rhs ts₁ =>
          match parseNT fuel .exprdash ts₁ with
          | .ok more ts₂ =>
            .ok (NODE.node "EXPRDASH" [NODE.node "PLUS" [], rhs, more]) ts₂
          | .err e => .err e
          | .timeout => .timeout
        | .err e => .err e
        | .timeout => .timeout
      else .ok (NODE.node "EXPRDASH" [NODE.node "EPSILON" []]) ts
    | .term =>
      match parseNT fuel .factor ts with
      | .ok f ts₁ =>
        match parseNT fuel .termdash ts₁ with
        | .ok d ts₂ => .ok (NODE.node "TERM" [f, d]) ts₂
        | .err e => .err e
        | .timeout => .timeout
      | .err e => .err e
      | .timeout => .timeout
    | .termdash =>
      if current_token ts = TOKEN.STAR then
        match parseNT fuel .factor ts.tail with
        | .ok f ts₁ =>
          match parseNT fuel .termdash ts₁ with
          | .ok more ts₂ =>
            .ok (NODE.node "TERMDASH" [NODE.node "STAR" [], f, more]) ts₂
          | .err e => .err e
          | .timeout => .timeout
        | .err e => .err e
        | .timeout => .timeout
      else .ok (NODE.node "TERMDASH" [NODE.node "EPSILON" []]) ts
    | .factor =>
      match current_token ts with
      | TOKEN.IDENTIFIER name =>
        .ok (NODE.node "FACTOR"
          [NODE.node ("IDENTIFIER(" ++ name ++ ")") []]) ts.tail
      | TOKEN.NUMBER n =>
        .ok (NODE.node "FACTOR" [NODE.node ("NUMBER(" ++ n ++ ")") []]) ts.tail
      | TOKEN.BOPEN =>
        match parseNT fuel .expr ts.tail with
        | .ok inside ts₁ =>
          if current_token ts₁ = TOKEN.BCLOSE then
            .ok (NODE.node "FACTOR"
              [NODE.node "BOPEN" [], inside, NODE.node "BCLOSE" []]) ts₁.tail
          else .err PErr.missingClose
        | .err e => .err e
        | .timeout => .timeout
      | other => .err (PErr.unexpectedToken other)

/-- Source `PARSER::parse_expr` (EXPR → TERM EXPRDASH). -/
def parse_expr (fuel : Nat) (ts : List TOKEN) : PResult :=
  parseNT fuel .expr ts

/-- Source `PARSER::parse_exprdash` (EXPRDASH → + TERM EXPRDASH | ε). -/
def parse_exprdash (fuel : Nat) (ts : List TOKEN) : PResult :=
  parseNT fuel .exprdash ts

/-- Source `PARSER::parse_term` (TERM → FACTOR TERMDASH). -/
def parse_term (fuel : Nat) (ts : List TOKEN) : PResult :=
  parseNT fuel .term ts

/-- Source `PARSER::parse_termdash` (TERMDASH → * FACTOR TERMDASH | ε). -/
def parse_termdash (fuel : Nat) (ts : List TOKEN) : PResult :=
  parseNT fuel .termdash ts

/-- Source `PARSER::parse_factor` (FACTOR → IDENTIFIER | NUMBER | ( EXPR )). -/
def parse_factor (fuel : Nat) (ts : List TOKEN) : PResult :=
  parseNT fuel .factor ts

/-- The labels printed by the breadth-first renderer `bfs_print` on its
`k`-th output line, starting from the given queue of same-level nodes in
left-to-right order. -/
def bfs_level : Nat → List NODE → List String
  | 0, nds => nds.map NODE.label
  | k + 1, nds => bfs_level k (nds.flatMap NODE.children)

/-- Reads a leaf label back as the token it renders: the four fixed
operator/parenthesis labels map to their tokens, `EPSILON` to nothing, and a
label written `IDENTIFIER(text)` or `NUMBER(text)` maps back to the token
carrying `text` (the wrapper stripped). -/
def labelToToken (l : String) : Option TOKEN :=
  match l.data with
  | ['P', 'L', 'U', 'S'] => some TOKEN.PLUS
  | ['S', 'T', 'A', 'R'] => some TOKEN.STAR
  | ['B', 'O', 'P', 'E', 'N'] => some TOKEN.BOPEN
  | ['B', 'C', 'L', 'O', 'S', 'E'] => some TOKEN.BCLOSE
  | 'I' :: 'D' :: 'E' :: 'N' :: 'T' :: 'I' :: 'F' :: 'I' :: 'E' :: 'R'
      :: '(' :: rest => some (TOKEN.IDENTIFIER ⟨rest.dropLast⟩)
  | 'N' :: 'U' :: 'M' :: 'B' :: 'E' :: 'R' :: '(' :: rest =>
      some (TOKEN.NUMBER ⟨rest.dropLast⟩)
  | _ => none

/-- The labels of the leaves of a forest, in depth-first (in-order)
left-to-right order. -/
def forestLeafLabels : List NODE → List String
  | [] => []
  | .node l [] :: rest => l :: forestLeafLabels rest
  | .node _ (c :: cs) :: rest =>
    forestLeafLabels (c :: cs) ++ forestLeafLabels rest

/-- The in-order leaf labels of a tree. -/
def leafLabels (nd : NODE) : List String :=
  forestLeafLabels [nd]

/-- The in-order leaves of a forest read back as tokens: `EPSILON` leaves
disappear, the other leaf labels are decoded by `labelToToken`. -/
def forestLeafTokens : List NODE → List TOKEN
  | [] => []
  | .node l [] :: rest => (labelToToken l).toList ++ forestLeafTokens rest
  | .node _ (c :: cs) :: rest =>
    forestLeafTokens (c :: cs) ++ forestLeafTokens rest

/-- The in-order leaves of a tree read back as tokens. -/
def leafTokens (nd : NODE) : List TOKEN :=
  forestLeafTokens [nd]

/-- The parse of one line in `main`: `parse_expr` from the first token, with
fuel that `parse_fuel_sufficient` proves ample. -/
def parse_line (ts : List TOKEN) : PResult :=
  parse_expr (3 * ts.length + 3) ts

/-- One non-blank line of `main`'s loop: tokenize, then parse. -/
def process_line (line : String) : PResult :=
  parse_line (tokenize_the_line line.data)

/-- Model of `main`'s loop over the input lines: a blank (all-whitespace) line is
skipped without tokenizing; otherwise the line is tokenized and parsed, and
any non-`ok` parse result aborts the whole run (`process::exit(1)`),
discarding the remaining lines. -/
def run_lines : List String → Except PResult Unit
  | [] => .ok ()
  | line :: rest =>
    if line.data.all isWhitespaceRust then run_lines rest
    else
      match process_line line with
      | .ok _ _ => run_lines rest
      | .err e => .error (.err e)
      | .timeout => .error .timeout

/-- The process exit code of a run: `0` when every line parses, `1` on the
first fatal parse failure. -/
def run_exit_code (lines : List String) : Nat :=
  match run_lines lines with
  | .ok _ => 0
  | .error _ => 1

/-- Derivability of a token string from a non-terminal of the grammar
`EXPR → TERM EXPRDASH`, `EXPRDASH → + TERM EXPRDASH | ε`,
`TERM → FACTOR TERMDASH`, `TERMDASH → * FACTOR TERMDASH | ε`,
`FACTOR → IDENTIFIER | NUMBER | ( EXPR )`. -/
inductive Derives : NT → List TOKEN → Prop where
  | expr {t d : List TOKEN} : Derives .term t → Derives .exprdash d →
      Derives .expr (t ++ d)
  | exprdash_plus {t d : List TOKEN} : Derives .term t →
      Derives .exprdash d → Derives .exprdash (TOKEN.PLUS :: t ++ d)
  | exprdash_eps : Derives .exprdash []
  | term {f d : List TOKEN} : Derives .factor f → Derives .termdash d →
      Derives .term (f ++ d)
  | termdash_star {f d : List TOKEN} : Derives .factor f →
      Derives .termdash d → Derives .termdash (TOKEN.STAR :: f ++ d)
  | termdash_eps : Derives .termdash []
  | factor_id (s : String) : Derives .factor [TOKEN.IDENTIFIER s]
  | factor_num (s : String) : Derives .factor [TOKEN.NUMBER s]
  | factor_paren {e : List TOKEN} : Derives .expr e →
      Derives .factor (TOKEN.BOPEN :: e ++ [TOKEN.BCLOSE])

/-- Fuel sufficient for a parse function on a token list of the given
length. -/
def fuelCost : NT → Nat → Nat
  | .expr, len => 3 * len + 3
  | .exprdash, len => 3 * len + 1
  | .term, len => 3 * len + 2
  | .termdash, len => 3 * len + 1
  | .factor, len => 3 * len + 1

/-- How many tokens a parse function is guaranteed to consume when it
succeeds: EXPR, TERM and FACTOR always consume at least one token, the two
dash functions may match ε and consume none. -/
def minConsume : NT → Nat
  | .expr => 1
  | .exprdash => 0
  | .term => 1
  | .termdash => 0
  | .factor => 1

/-- The token the parse function must not see right after its production if
it is to stop exactly there: the FOLLOW-set side condition of the LL(1)
completeness proof. -/
def followOK : NT → List TOKEN → Prop
  | .expr, rest =>
    current_token rest ≠ TOKEN.PLUS ∧ current_token rest ≠ TOKEN.STAR
  | .exprdash, rest =>
    current_token rest ≠ TOKEN.PLUS ∧ current_token rest ≠ TOKEN.STAR
  | .term, rest => current_token rest ≠ TOKEN.STAR
  | .termdash, rest => current_token rest ≠ TOKEN.STAR
  | .factor, _ => True

/-- The tree the parser builds for the line `"x+y"`. -/
def xPlusYTree : NODE :=
  NODE.node "EXPR"
    [NODE.node "TERM"
      [NODE.node "FACTOR" [NODE.node "IDENTIFIER(x)" []],
       NODE.node "TERMDASH" [NODE.node "EPSILON" []]],
     NODE.node "EXPRDASH"
      [NODE.node "PLUS" [],
       NODE.node "TERM"
        [NODE.node "FACTOR" [NODE.node "IDENTIFIER(y)" []],
         NODE.node "TERMDASH" [NODE.node "EPSILON" []]],
       NODE.node "EXPRDASH" [NODE.node "EPSILON" []]]]

/-- A label of the form `IDENTIFIER(...)` or `NUMBER(...)`. -/
def isWrappedLeafLabel (l : String) : Bool :=
  match labelToToken l with
  | some (TOKEN.IDENTIFIER _) => true
  | some (TOKEN.NUMBER _) => true
  | _ => false

/-- A label that only ever labels a leaf in parser output. -/
def isTerminalLabel (l : String) : Bool :=
  decide (l = "PLUS" ∨ l = "STAR" ∨ l = "BOPEN" ∨ l = "BCLOSE" ∨
    l = "EPSILON") || isWrappedLeafLabel l

/-- The local shape constraint of one node, as claimed: EXPR/TERM have two
children; EXPRDASH/TERMDASH have an operator leaf, a subtree and a
continuation, or a single EPSILON child; FACTOR wraps one
`IDENTIFIER(...)`/`NUMBER(...)` leaf or a parenthesised EXPR; terminal labels
have no children. -/
def ShapeRoot : NODE → Prop
  | .node l cs =>
    ((l = "EXPR" ∨ l = "TERM") → cs.length = 2) ∧
    (l = "EXPRDASH" →
      (∃ c, cs = [c] ∧ c.label = "EPSILON") ∨
      (∃ a b c, cs = [a, b, c] ∧ a.label = "PLUS" ∧ c.label = "EXPRDASH")) ∧
    (l = "TERMDASH" →
      (∃ c, cs = [c] ∧ c.label = "EPSILON") ∨
      (∃ a b c, cs = [a, b, c] ∧ a.label = "STAR" ∧ c.label = "TERMDASH")) ∧
    (l = "FACTOR" →
      (∃ c, cs = [c] ∧ isWrappedLeafLabel c.label = true) ∨
      (∃ a b c, cs = [a, b, c] ∧ a.label = "BOPEN" ∧ b.label = "EXPR" ∧
        c.label = "BCLOSE")) ∧
    (isTerminalLabel l = true → cs = [])

/-- Predicate `ShapeRoot` at every node of a forest. -/
def ForestShape : List NODE → Prop
  | [] => True
  | .node l cs :: rest =>
    ShapeRoot (.node l cs) ∧ ForestShape cs ∧ ForestShape rest

/-- Predicate `ShapeRoot` at every node of a tree. -/
def ShapeOK (nd : NODE) : Prop :=
  ForestShape [nd]

/-- The non-terminal parsed by each parse function, as it labels its root
node. -/
def ntLabel : NT → String
  | .expr => "EXPR"
  | .exprdash => "EXPRDASH"
  | .term => "TERM"
  | .termdash => "TERMDASH"
  | .factor => "FACTOR"

theorem dropWhile_length_le (p : Char → Bool) (cs : List Char) :
    (cs.dropWhile p).length ≤ cs.length :=
  (List.dropWhile_suffix p).sublist.length_le

theorem skip_whitespace_length (cs : List Char) :
    (skip_whitespace cs).length ≤ cs.length :=
  dropWhile_length_le isWhitespaceRust cs

theorem get_next_token_length {alpha : Char → Bool} {cs rest : List Char}
    {t : TOKEN} (h : get_next_token_gen alpha cs = some (t, rest)) :
    rest.length < cs.length := by
  unfold get_next_token_gen at h
  rcases hs : skip_whitespace cs with _ | ⟨ch, tl⟩
  · rw [hs] at h; exact absurd h (by simp)
  · rw [hs] at h
    have htl : tl.length < cs.length := by
      have := skip_whitespace_length cs
      rw [hs] at this
      simpa using Nat.lt_of_lt_of_le (Nat.lt_succ_self _) this
    have hdrop : (tl.dropWhile isAsciiDigitRust).length ≤ tl.length :=
      dropWhile_length_le _ tl
    have hdropA : (tl.dropWhile alpha).length ≤ tl.length :=
      dropWhile_length_le _ tl
    simp only [Option.some.injEq] at h
    split at h
    · cases h; exact htl
    · split at h
      · cases h; exact htl
      · split at h
        · cases h; exact htl
        · split at h
          · cases h; exact htl
          · split at h
            · cases h
              exact Nat.lt_of_le_of_lt hdrop htl
            · split at h
              · cases h
                exact Nat.lt_of_le_of_lt hdropA htl
              · cases h; exact htl

/-- Any fuel above the remaining input length yields the same token list:
the loop always stops on `get_next_token = none` and never on fuel. -/
theorem tokenize_loop_fuel {alpha : Char → Bool} :
    ∀ (fuel₁ : Nat) (cs : List Char), cs.length < fuel₁ →
      ∀ fuel₂, cs.length < fuel₂ →
        tokenize_loop_gen alpha fuel₁ cs = tokenize_loop_gen alpha fuel₂ cs := by
  intro fuel₁
  induction fuel₁ with
  | zero => intro cs h; omega
  | succ n ih =>
    intro cs h fuel₂ h₂
    match fuel₂, h₂ with
    | m + 1, h₂ =>
      show tokenize_loop_gen alpha (n + 1) cs = tokenize_loop_gen alpha (m + 1) cs
      rcases hg : get_next_token_gen alpha cs with _ | ⟨tok, rest⟩
      · simp only [tokenize_loop_gen, hg]
      · have hlt := get_next_token_length hg
        simp only [tokenize_loop_gen, hg]
        rw [ih rest (by omega) m (by omega)]

theorem labelToToken_id (s : String) :
    labelToToken ("IDENTIFIER(" ++ s ++ ")") = some (TOKEN.IDENTIFIER s) := by
  show some (TOKEN.IDENTIFIER ⟨(s.data ++ [')']).dropLast⟩) =
    some (TOKEN.IDENTIFIER s)
  rw [List.dropLast_concat]

theorem labelToToken_num (s : String) :
    labelToToken ("NUMBER(" ++ s ++ ")") = some (TOKEN.NUMBER s) := by
  show some (TOKEN.NUMBER ⟨(s.data ++ [')']).dropLast⟩) = some (TOKEN.NUMBER s)
  rw [List.dropLast_concat]

/-- With fuel at least `fuelCost`, no parse function times out, and on
success the remaining tokens shrink by at least `minConsume`.  This is the
termination argument of the source's mutual recursion: every cycle through
the call graph consumes at least one token. -/
theorem parseNT_progress :
    ∀ fuel nt ts, fuelCost nt ts.length ≤ fuel →
      parseNT fuel nt ts ≠ .timeout ∧
      ∀ nd r, parseNT fuel nt ts = .ok nd r →
        r.length + minConsume nt ≤ ts.length := by
  intro fuel
  induction fuel with
  | zero =>
    intro nt ts h
    exact absurd h (by cases nt <;> simp [fuelCost])
  | succ n ih =>
    intro nt ts h
    cases nt with
    | expr =>
      have hT := ih NT.term ts (by simp [fuelCost] at h ⊢; omega)
      rcases h1 : parseNT n NT.term ts with ⟨t, ts₁⟩ | e | _
      · have hb1 := hT.2 t ts₁ h1
        simp [minConsume] at hb1
        have hD := ih NT.exprdash ts₁
          (by simp [fuelCost] at h ⊢; omega)
        rcases h2 : parseNT n NT.exprdash ts₁ with ⟨d, ts₂⟩ | e | _
        · have hb2 := hD.2 d ts₂ h2
          simp [minConsume] at hb2
          constructor
          · simp [parseNT, h1, h2]
          · intro nd r hr
            simp [parseNT, h1, h2] at hr
            obtain ⟨-, rfl⟩ := hr
            simp [minConsume]
            omega
        · constructor
          · simp [parseNT, h1, h2]
          · intro nd r hr
            simp [parseNT, h1, h2] at hr
        · exact absurd h2 hD.1
      · constructor
        · simp [parseNT, h1]
        · intro nd r hr
          simp [parseNT, h1] at hr
      · exact absurd h1 hT.1
    | exprdash =>
      by_cases hc : current_token ts = TOKEN.PLUS
      · have hne : ts ≠ [] := by
          intro hnil; rw [hnil] at hc; exact absurd hc (by simp [current_token])
        have hlen : ts.tail.length + 1 = ts.length := by
          cases ts with
          | nil => exact absurd rfl hne
          | cons a l => simp
        have hT := ih NT.term ts.tail
          (by simp [fuelCost] at h ⊢; omega)
        rcases h1 : parseNT n NT.term ts.tail with ⟨t, ts₁⟩ | e | _
        · have hb1 := hT.2 t ts₁ h1
          simp [minConsume] at hb1
          have hD := ih NT.exprdash ts₁
            (by simp [fuelCost] at h ⊢; omega)
          rcases h2 : parseNT n NT.exprdash ts₁ with ⟨d, ts₂⟩ | e | _
          · have hb2 := hD.2 d ts₂ h2
            simp [minConsume] at hb2
            constructor
            · simp [parseNT, hc, h1, h2]
            · intro nd r hr
              simp [parseNT, hc, h1, h2] at hr
              obtain ⟨-, rfl⟩ := hr
              simp [minConsume]
              omega
          · constructor
            · simp [parseNT, hc, h1, h2]
            · intro nd r hr
              simp [parseNT, hc, h1, h2] at hr
          · exact absurd h2 hD.1
        · constructor
          · simp [parseNT, hc, h1]
          · intro nd r hr
            simp [parseNT, hc, h1] at hr
        · exact absurd h1 hT.1
      · constructor
        · simp [parseNT, hc]
        · intro nd r hr
          simp [parseNT, hc] at hr
          obtain ⟨-, rfl⟩ := hr
          simp [minConsume]
    | term =>
      have hF := ih NT.factor ts (by simp [fuelCost] at h ⊢; omega)
      rcases h1 : parseNT n NT.factor ts with ⟨f, ts₁⟩ | e | _
      · have hb1 := hF.2 f ts₁ h1
        simp [minConsume] at hb1
        have hD := ih NT.termdash ts₁
          (by simp [fuelCost] at h ⊢; omega)
        rcases h2 : parseNT n NT.termdash ts₁ with ⟨d, ts₂⟩ | e | _
        · have hb2 := hD.2 d ts₂ h2
          simp [minConsume] at hb2
          constructor
          · simp [parseNT, h1, h2]
          · intro nd r hr
            simp [parseNT, h1, h2] at hr
            obtain ⟨-, rfl⟩ := hr
            simp [minConsume]
            omega
        · constructor
          · simp [parseNT, h1, h2]
          · intro nd r hr
            simp [parseNT, h1, h2] at hr
        · exact absurd h2 hD.1
      · constructor
        · simp [parseNT, h1]
        · intro nd r hr
          simp [parseNT, h1] at hr
      · exact absurd h1 hF.1
    | termdash =>
      by_cases hc : current_token ts = TOKEN.STAR
      · have hne : ts ≠ [] := by
          intro hnil; rw [hnil] at hc; exact absurd hc (by simp [current_token])
        have hlen : ts.tail.length + 1 = ts.length := by
          cases ts with
          | nil => exact absurd rfl hne
          | cons a l => simp
        have hF := ih NT.factor ts.tail
          (by simp [fuelCost] at h ⊢; omega)
        rcases h1 : parseNT n NT.factor ts.tail with ⟨f, ts₁⟩ | e | _
        · have hb1 := hF.2 f ts₁ h1
          simp [minConsume] at hb1
          have hD := ih NT.termdash ts₁
            (by simp [fuelCost] at h ⊢; omega)
          rcases h2 : parseNT n NT.termdash ts₁ with ⟨d, ts₂⟩ | e | _
          · have hb2 := hD.2 d ts₂ h2
            simp [minConsume] at hb2
            constructor
            · simp [parseNT, hc, h1, h2]
            · intro nd r hr
              simp [parseNT, hc, h1, h2] at hr
              obtain ⟨-, rfl⟩ := hr
              simp [minConsume]
              omega
          · constructor
            · simp [parseNT, hc, h1, h2]
            · intro nd r hr
              simp [parseNT, hc, h1, h2] at hr
          · exact absurd h2 hD.1
        · constructor
          · simp [parseNT, hc, h1]
          · intro nd r hr
            simp [parseNT, hc, h1] at hr
        · exact absurd h1 hF.1
      · constructor
        · simp [parseNT, hc]
        · intro nd r hr
          simp [parseNT, hc] at hr
          obtain ⟨-, rfl⟩ := hr
          simp [minConsume]
    | factor =>
      rcases hc : current_token ts with s | s | _ | _ | _ | _ | _ | _
      · have hne : ts ≠ [] := by
          intro hnil; rw [hnil] at hc; exact absurd hc (by simp [current_token])
        have hlen : ts.tail.length + 1 = ts.length := by
          cases ts with
          | nil => exact absurd rfl hne
          | cons a l => simp
        constructor
        · simp [parseNT, hc]
        · intro nd r hr
          simp [parseNT, hc] at hr
          obtain ⟨-, rfl⟩ := hr
          simp [minConsume]
          omega
      · have hne : ts ≠ [] := by
          intro hnil; rw [hnil] at hc; exact absurd hc (by simp [current_token])
        have hlen : ts.tail.length + 1 = ts.length := by
          cases ts with
          | nil => exact absurd rfl hne
          | cons a l => simp
        constructor
        · simp [parseNT, hc]
        · intro nd r hr
          simp [parseNT, hc] at hr
          obtain ⟨-, rfl⟩ := hr
          simp [minConsume]
          omega
      · constructor
        · simp [parseNT, hc]
        · intro nd r hr
          simp [parseNT, hc] at hr
      · constructor
        · simp [parseNT, hc]
        · intro nd r hr
          simp [parseNT, hc] at hr
      · -- BOPEN
        have hne : ts ≠ [] := by
          intro hnil; rw [hnil] at hc; exact absurd hc (by simp [current_token])
        have hlen : ts.tail.length + 1 = ts.length := by
          cases ts with
          | nil => exact absurd rfl hne
          | cons a l => simp
        have hE := ih NT.expr ts.tail
          (by simp [fuelCost] at h ⊢; omega)
        rcases h1 : parseNT n NT.expr ts.tail with ⟨inside, ts₁⟩ | e | _
        · have hb1 := hE.2 inside ts₁ h1
          simp [minConsume] at hb1
          by_cases hcl : current_token ts₁ = TOKEN.BCLOSE
          · have htl : ts₁.tail.length ≤ ts₁.length := by
              cases ts₁ <;> simp
            constructor
            · simp [parseNT, hc, h1, hcl]
            · intro nd r hr
              simp [parseNT, hc, h1, hcl] at hr
              obtain ⟨-, rfl⟩ := hr
              simp [minConsume]
              omega
          · constructor
            · simp [parseNT, hc, h1, hcl]
            · intro nd r hr
              simp [parseNT, hc, h1, hcl] at hr
        · constructor
          · simp [parseNT, hc, h1]
          · intro nd r hr
            simp [parseNT, hc, h1] at hr
        · exact absurd h1 hE.1
      · constructor
        · simp [parseNT, hc]
        · intro nd r hr
          simp [parseNT, hc] at hr
      · constructor
        · simp [parseNT, hc]
        · intro nd r hr
          simp [parseNT, hc] at hr
      · constructor
        · simp [parseNT, hc]
        · intro nd r hr
          simp [parseNT, hc] at hr

theorem labelToToken_plus : labelToToken "PLUS" = some TOKEN.PLUS := rfl

theorem labelToToken_star : labelToToken "STAR" = some TOKEN.STAR := rfl

theorem labelToToken_bopen : labelToToken "BOPEN" = some TOKEN.BOPEN := rfl

theorem labelToToken_bclose : labelToToken "BCLOSE" = some TOKEN.BCLOSE := rfl

theorem labelToToken_eps : labelToToken "EPSILON" = none := rfl

theorem forestLeafTokens_cons (x : NODE) (xs : List NODE) :
    forestLeafTokens (x :: xs) = forestLeafTokens [x] ++ forestLeafTokens xs := by
  cases x with
  | node l cs =>
    cases cs with
    | nil => simp [forestLeafTokens]
    | cons c cs' => simp [forestLeafTokens]

theorem leafTokens_leaf (l : String) :
    leafTokens (NODE.node l []) = (labelToToken l).toList := by
  simp [leafTokens, forestLeafTokens]

theorem leafTokens_node2 (l : String) (a b : NODE) :
    leafTokens (NODE.node l [a, b]) = leafTokens a ++ leafTokens b := by
  simp only [leafTokens]
  rw [show forestLeafTokens [NODE.node l [a, b]] = forestLeafTokens [a, b] by
    simp [forestLeafTokens]]
  rw [forestLeafTokens_cons a [b]]

theorem leafTokens_node3 (l : String) (a b c : NODE) :
    leafTokens (NODE.node l [a, b, c]) =
      leafTokens a ++ (leafTokens b ++ leafTokens c) := by
  simp only [leafTokens]
  rw [show forestLeafTokens [NODE.node l [a, b, c]] = forestLeafTokens [a, b, c]
    by simp [forestLeafTokens]]
  rw [forestLeafTokens_cons a [b, c], forestLeafTokens_cons b [c]]

theorem Derives_factor_len {w : List TOKEN} (h : Derives .factor w) :
    0 < w.length := by
  cases h <;> simp

theorem Derives_term_len {w : List TOKEN} (h : Derives .term w) :
    0 < w.length := by
  cases h with
  | term hf hd =>
    have := Derives_factor_len hf
    simp only [List.length_append]
    omega

theorem Derives_exprdash_head {d : List TOKEN} (h : Derives .exprdash d) :
    d = [] ∨ ∃ tl, d = TOKEN.PLUS :: tl := by
  cases h with
  | exprdash_plus ht hd => exact Or.inr ⟨_, rfl⟩
  | exprdash_eps => exact Or.inl rfl

theorem Derives_termdash_head {d : List TOKEN} (h : Derives .termdash d) :
    d = [] ∨ ∃ tl, d = TOKEN.STAR :: tl := by
  cases h with
  | termdash_star hf hd => exact Or.inr ⟨_, rfl⟩
  | termdash_eps => exact Or.inl rfl

theorem leafTokens_node1 (l : String) (a : NODE) :
    leafTokens (NODE.node l [a]) = leafTokens a := by
  simp only [leafTokens]
  rw [show forestLeafTokens [NODE.node l [a]] = forestLeafTokens [a] ++ [] by
    simp [forestLeafTokens]]
  simp

/-- LL(1) completeness: a parse function, run on a string derived from its
non-terminal followed by any rest whose first token is outside the relevant
FOLLOW condition, succeeds, stops exactly at the rest, and builds a tree
whose leaves read back as exactly the derived string. -/
theorem parseNT_complete {nt : NT} {w : List TOKEN} (h : Derives nt w) :
    ∀ rest fuel, fuelCost nt (w ++ rest).length ≤ fuel → followOK nt rest →
      ∃ nd, parseNT fuel nt (w ++ rest) = .ok nd rest ∧ leafTokens nd = w := by
  induction h with
  | @expr t d ht hd iht ihd =>
    intro rest fuel hf hfol
    cases fuel with
    | zero => simp only [fuelCost] at hf; omega
    | succ n =>
      have hlt := Derives_term_len ht
      have hfolT : followOK NT.term (d ++ rest) := by
        rcases Derives_exprdash_head hd with rfl | ⟨tl, rfl⟩
        · simpa [followOK] using hfol.2
        · simp [followOK, current_token]
      obtain ⟨ndT, hT, hLT⟩ := iht (d ++ rest) n
        (by simp only [fuelCost, List.length_append] at hf ⊢; omega) hfolT
      obtain ⟨ndD, hD, hLD⟩ := ihd rest n
        (by simp only [fuelCost, List.length_append] at hf ⊢; omega) hfol
      refine ⟨NODE.node "EXPR" [ndT, ndD], ?_, ?_⟩
      · rw [List.append_assoc]
        simp [parseNT, hT, hD]
      · rw [leafTokens_node2, hLT, hLD]
  | @exprdash_plus t d ht hd iht ihd =>
    intro rest fuel hf hfol
    cases fuel with
    | zero => simp only [fuelCost] at hf; omega
    | succ n =>
      have hlt := Derives_term_len ht
      have hfolT : followOK NT.term (d ++ rest) := by
        rcases Derives_exprdash_head hd with rfl | ⟨tl, rfl⟩
        · simpa [followOK] using hfol.2
        · simp [followOK, current_token]
      obtain ⟨ndT, hT, hLT⟩ := iht (d ++ rest) n
        (by simp only [fuelCost, List.length_append, List.length_cons] at hf ⊢
            omega) hfolT
      obtain ⟨ndD, hD, hLD⟩ := ihd rest n
        (by simp only [fuelCost, List.length_append, List.length_cons] at hf ⊢
            omega) hfol
      refine ⟨NODE.node "EXPRDASH" [NODE.node "PLUS" [], ndT, ndD], ?_, ?_⟩
      · show parseNT (n + 1) NT.exprdash ((TOKEN.PLUS :: (t ++ d)) ++ rest) = _
        rw [show (TOKEN.PLUS :: (t ++ d)) ++ rest =
          TOKEN.PLUS :: (t ++ (d ++ rest)) by simp]
        simp [parseNT, current_token, hT, hD]
      · rw [leafTokens_node3, hLT, hLD, leafTokens_leaf, labelToToken_plus]
        simp
  | exprdash_eps =>
    intro rest fuel hf hfol
    cases fuel with
    | zero => simp only [fuelCost] at hf; omega
    | succ n =>
      refine ⟨NODE.node "EXPRDASH" [NODE.node "EPSILON" []], ?_, ?_⟩
      · show parseNT (n + 1) NT.exprdash ([] ++ rest) = _
        simp [parseNT, hfol.1]
      · simp [leafTokens, forestLeafTokens, labelToToken_eps]
  | @term f d hfa hd ihf ihd =>
    intro rest fuel hf hfol
    cases fuel with
    | zero => simp only [fuelCost] at hf; omega
    | succ n =>
      have hlf := Derives_factor_len hfa
      obtain ⟨ndF, hF, hLF⟩ := ihf (d ++ rest) n
        (by simp only [fuelCost, List.length_append] at hf ⊢; omega) trivial
      obtain ⟨ndD, hD, hLD⟩ := ihd rest n
        (by simp only [fuelCost, List.length_append] at hf ⊢; omega) hfol
      refine ⟨NODE.node "TERM" [ndF, ndD], ?_, ?_⟩
      · rw [List.append_assoc]
        simp [parseNT, hF, hD]
      · rw [leafTokens_node2, hLF, hLD]
  | @termdash_star f d hfa hd ihf ihd =>
    intro rest fuel hf hfol
    cases fuel with
    | zero => simp only [fuelCost] at hf; omega
    | succ n =>
      have hlf := Derives_factor_len hfa
      obtain ⟨ndF, hF, hLF⟩ := ihf (d ++ rest) n
        (by simp only [fuelCost, List.length_append, List.length_cons] at hf ⊢
            omega) trivial
      obtain ⟨ndD, hD, hLD⟩ := ihd rest n
        (by simp only [fuelCost, List.length_append, List.length_cons] at hf ⊢
            omega) hfol
      refine ⟨NODE.node "TERMDASH" [NODE.node "STAR" [], ndF, ndD], ?_, ?_⟩
      · show parseNT (n + 1) NT.termdash ((TOKEN.STAR :: (f ++ d)) ++ rest) = _
        rw [show (TOKEN.STAR :: (f ++ d)) ++ rest =
          TOKEN.STAR :: (f ++ (d ++ rest)) by simp]
        simp [parseNT, current_token, hF, hD]
      · rw [leafTokens_node3, hLF, hLD, leafTokens_leaf, labelToToken_star]
        simp
  | termdash_eps =>
    intro rest fuel hf hfol
    cases fuel with
    | zero => simp only [fuelCost] at hf; omega
    | succ n =>
      refine ⟨NODE.node "TERMDASH" [NODE.node "EPSILON" []], ?_, ?_⟩
      · show parseNT (n + 1) NT.termdash ([] ++ rest) = _
        simp only [followOK] at hfol
        simp [parseNT, hfol]
      · simp [leafTokens, forestLeafTokens, labelToToken_eps]
  | factor_id s =>
    intro rest fuel hf hfol
    cases fuel with
    | zero => simp only [fuelCost] at hf; omega
    | succ n =>
      refine ⟨NODE.node "FACTOR"
        [NODE.node ("IDENTIFIER(" ++ s ++ ")") []], ?_, ?_⟩
      · simp [parseNT, current_token]
      · rw [leafTokens_node1, leafTokens_leaf, labelToToken_id]
        rfl
  | factor_num s =>
    intro rest fuel hf hfol
    cases fuel with
    | zero => simp only [fuelCost] at hf; omega
    | succ n =>
      refine ⟨NODE.node "FACTOR" [NODE.node ("NUMBER(" ++ s ++ ")") []], ?_, ?_⟩
      · simp [parseNT, current_token]
      · rw [leafTokens_node1, leafTokens_leaf, labelToToken_num]
        rfl
  | @factor_paren e he ihe =>
    intro rest fuel hf hfol
    cases fuel with
    | zero => simp only [fuelCost] at hf; omega
    | succ n =>
      have hfolE : followOK NT.expr (TOKEN.BCLOSE :: rest) := by
        simp [followOK, current_token]
      obtain ⟨ndE, hE, hLE⟩ := ihe (TOKEN.BCLOSE :: rest) n
        (by simp only [fuelCost, List.length_append, List.length_cons] at hf ⊢
            omega) hfolE
      refine ⟨NODE.node "FACTOR"
        [NODE.node "BOPEN" [], ndE, NODE.node "BCLOSE" []], ?_, ?_⟩
      · show parseNT (n + 1) NT.factor
          ((TOKEN.BOPEN :: (e ++ [TOKEN.BCLOSE])) ++ rest) = _
        rw [show (TOKEN.BOPEN :: (e ++ [TOKEN.BCLOSE])) ++ rest =
          TOKEN.BOPEN :: (e ++ (TOKEN.BCLOSE :: rest)) by simp]
        simp [parseNT, current_token, hE]
      · rw [leafTokens_node3, hLE, leafTokens_leaf, leafTokens_leaf,
          labelToToken_bopen, labelToToken_bclose]
        simp

theorem get_next_token_ne_eof {alpha : Char → Bool} {cs r : List Char}
    {t : TOKEN} (h : get_next_token_gen alpha cs = some (t, r)) :
    t ≠ TOKEN.EOF := by
  rintro rfl
  unfold get_next_token_gen at h
  rcases hs : skip_whitespace cs with _ | ⟨ch, tl⟩ <;> rw [hs] at h
  · simp at h
  · simp only [Option.some.injEq] at h
    split at h
    all_goals try split at h
    all_goals try split at h
    all_goals try split at h
    all_goals try split at h
    all_goals try split at h
    all_goals simp at h

theorem tokenize_loop_ne_eof {alpha : Char → Bool} :
    ∀ (fuel : Nat) (cs : List Char),
      TOKEN.EOF ∉ tokenize_loop_gen alpha fuel cs := by
  intro fuel
  induction fuel with
  | zero => intro cs; simp [tokenize_loop_gen]
  | succ n ih =>
    intro cs
    rcases hg : get_next_token_gen alpha cs with _ | ⟨tok, rest⟩
    · simp [tokenize_loop_gen, hg]
    · simp only [tokenize_loop_gen, hg, List.mem_cons]
      rintro (rfl | hmem)
      · exact get_next_token_ne_eof hg rfl
      · exact ih rest hmem

/-- C4: every tokenized line is some `EOF`-free prefix followed by exactly
one `EOF` token; `EOF` occurs nowhere else. -/
theorem tokenize_line_single_eof (cs : List Char) :
    ∃ pre, tokenize_the_line cs = pre ++ [TOKEN.EOF] ∧ TOKEN.EOF ∉ pre :=
  ⟨tokenize_loop (cs.length + 1) cs, rfl, tokenize_loop_ne_eof _ cs⟩

/-- C7: with fuel at least `3 * length + 3`, none of the five mutually
recursive parse functions can exhaust it: the recursion always terminates in
a tree or a fatal-failure branch, because each cycle in the call graph
consumes at least one token (the remaining range strictly decreases across
`parse_expr`, `parse_term` and `parse_factor`). -/
theorem parser_terminates (ts : List TOKEN) (fuel : Nat)
    (h : 3 * ts.length + 3 ≤ fuel) :
    (parse_expr fuel ts ≠ .timeout ∧ parse_exprdash fuel ts ≠ .timeout ∧
     parse_term fuel ts ≠ .timeout ∧ parse_termdash fuel ts ≠ .timeout ∧
     parse_factor fuel ts ≠ .timeout) ∧
    (∀ nd r, parse_expr fuel ts = .ok nd r → r.length < ts.length) ∧
    (∀ nd r, parse_term fuel ts = .ok nd r → r.length < ts.length) ∧
    (∀ nd r, parse_factor fuel ts = .ok nd r → r.length < ts.length) := by
  have he := parseNT_progress fuel NT.expr ts (by simp [fuelCost]; omega)
  have hed := parseNT_progress fuel NT.exprdash ts (by simp [fuelCost]; omega)
  have ht := parseNT_progress fuel NT.term ts (by simp [fuelCost]; omega)
  have htd := parseNT_progress fuel NT.termdash ts (by simp [fuelCost]; omega)
  have hfa := parseNT_progress fuel NT.factor ts (by simp [fuelCost]; omega)
  refine ⟨⟨he.1, hed.1, ht.1, htd.1, hfa.1⟩, ?_, ?_, ?_⟩
  · intro nd r hr
    have := he.2 nd r hr
    simp [minConsume] at this
    omega
  · intro nd r hr
    have := ht.2 nd r hr
    simp [minConsume] at this
    omega
  · intro nd r hr
    have := hfa.2 nd r hr
    simp [minConsume] at this
    omega

theorem parser_terminates_witness :
    3 * ([] : List TOKEN).length + 3 ≤ 3 ∧
    ((parse_expr 3 [] ≠ .timeout ∧ parse_exprdash 3 [] ≠ .timeout ∧
      parse_term 3 [] ≠ .timeout ∧ parse_termdash 3 [] ≠ .timeout ∧
      parse_factor 3 [] ≠ .timeout) ∧
     (∀ nd r, parse_expr 3 [] = .ok nd r → r.length < ([] : List TOKEN).length) ∧
     (∀ nd r, parse_term 3 [] = .ok nd r → r.length < ([] : List TOKEN).length) ∧
     (∀ nd r, parse_factor 3 [] = .ok nd r →
        r.length < ([] : List TOKEN).length)) :=
  ⟨by decide, parser_terminates [] 3 (by decide)⟩

/-- C1: for a line whose token sequence (minus the trailing `EOF`) is derived
from EXPR by the grammar, `parse_expr` succeeds, stops at the `EOF`, and the
in-order leaves of its tree — `EPSILON` dropped, `IDENTIFIER(...)`/
`NUMBER(...)` labels read back as tokens — are exactly the original token
sequence without the trailing `EOF`. -/
theorem grammar_line_parses_and_leaves_roundtrip
    (line : List Char) (w : List TOKEN)
    (htok : tokenize_the_line line = w ++ [TOKEN.EOF])
    (hder : Derives NT.expr w) (fuel : Nat)
    (hfuel : 3 * (w.length + 1) + 3 ≤ fuel) :
    ∃ nd, parse_expr fuel (tokenize_the_line line) = .ok nd [TOKEN.EOF] ∧
      leafTokens nd = w := by
  rw [htok]
  exact parseNT_complete hder [TOKEN.EOF] fuel
    (by simp only [fuelCost, List.length_append, List.length_cons,
          List.length_nil]
        omega)
    (by simp [followOK, current_token])

theorem grammar_line_parses_and_leaves_roundtrip_witness :
    tokenize_the_line "x".data = [TOKEN.IDENTIFIER "x"] ++ [TOKEN.EOF] ∧
    3 * (([TOKEN.IDENTIFIER "x"] : List TOKEN).length + 1) + 3 ≤ 9 ∧
    ∃ nd, parse_expr 9 (tokenize_the_line "x".data) = .ok nd [TOKEN.EOF] ∧
      leafTokens nd = [TOKEN.IDENTIFIER "x"] :=
  ⟨by decide, by decide,
   grammar_line_parses_and_leaves_roundtrip "x".data [TOKEN.IDENTIFIER "x"]
     (by decide)
     (Derives.expr (Derives.term (Derives.factor_id "x") Derives.termdash_eps)
       Derives.exprdash_eps) 9 (by decide)⟩

/-- The unexpected-token failure always carries a token on which the FACTOR
dispatch fails: never an `IDENTIFIER`, `NUMBER` or `BOPEN`. -/
theorem parseNT_err_token :
    ∀ (fuel : Nat) (nt : NT) (ts : List TOKEN) (t : TOKEN),
      parseNT fuel nt ts = .err (.unexpectedToken t) →
      t = TOKEN.PLUS ∨ t = TOKEN.STAR ∨ t = TOKEN.BCLOSE ∨ t = TOKEN.ERROR ∨
      t = TOKEN.EOF := by
  intro fuel
  induction fuel with
  | zero => intro nt ts t h; simp [parseNT] at h
  | succ n ih =>
    intro nt ts t h
    cases nt with
    | expr =>
      simp only [parseNT] at h
      rcases h1 : parseNT n NT.term ts with ⟨a, r⟩ | e | _ <;>
        simp only [h1] at h
      · rcases h2 : parseNT n NT.exprdash r with ⟨b, r₂⟩ | e | _ <;>
          simp only [h2] at h
        · exact absurd h (by simp)
        · obtain rfl : e = PErr.unexpectedToken t := by simpa using h
          exact ih NT.exprdash r t h2
        · exact absurd h (by simp)
      · obtain rfl : e = PErr.unexpectedToken t := by simpa using h
        exact ih NT.term ts t h1
      · exact absurd h (by simp)
    | exprdash =>
      simp only [parseNT] at h
      by_cases hc : current_token ts = TOKEN.PLUS
      · rw [if_pos hc] at h
        rcases h1 : parseNT n NT.term ts.tail with ⟨a, r⟩ | e | _ <;>
          simp only [h1] at h
        · rcases h2 : parseNT n NT.exprdash r with ⟨b, r₂⟩ | e | _ <;>
            simp only [h2] at h
          · exact absurd h (by simp)
          · obtain rfl : e = PErr.unexpectedToken t := by simpa using h
            exact ih NT.exprdash r t h2
          · exact absurd h (by simp)
        · obtain rfl : e = PErr.unexpectedToken t := by simpa using h
          exact ih NT.term ts.tail t h1
        · exact absurd h (by simp)
      · rw [if_neg hc] at h
        exact absurd h (by simp)
    | term =>
      simp only [parseNT] at h
      rcases h1 : parseNT n NT.factor ts with ⟨a, r⟩ | e | _ <;>
        simp only [h1] at h
      · rcases h2 : parseNT n NT.termdash r with ⟨b, r₂⟩ | e | _ <;>
          simp only [h2] at h
        · exact absurd h (by simp)
        · obtain rfl : e = PErr.unexpectedToken t := by simpa using h
          exact ih NT.termdash r t h2
        · exact absurd h (by simp)
      · obtain rfl : e = PErr.unexpectedToken t := by simpa using h
        exact ih NT.factor ts t h1
      · exact absurd h (by simp)
    | termdash =>
      simp only [parseNT] at h
      by_cases hc : current_token ts = TOKEN.STAR
      · rw [if_pos hc] at h
        rcases h1 : parseNT n NT.factor ts.tail with ⟨a, r⟩ | e | _ <;>
          simp only [h1] at h
        · rcases h2 : parseNT n NT.termdash r with ⟨b, r₂⟩ | e | _ <;>
            simp only [h2] at h
          · exact absurd h (by simp)
          · obtain rfl : e = PErr.unexpectedToken t := by simpa using h
            exact ih NT.termdash r t h2
          · exact absurd h (by simp)
        · obtain rfl : e = PErr.unexpectedToken t := by simpa using h
          exact ih NT.factor ts.tail t h1
        · exact absurd h (by simp)
      · rw [if_neg hc] at h
        exact absurd h (by simp)
    | factor =>
      simp only [parseNT] at h
      rcases hc : current_token ts with s | s | _ | _ | _ | _ | _ | _ <;>
        simp only [hc] at h
      · exact absurd h (by simp)
      · exact absurd h (by simp)
      · obtain rfl : TOKEN.PLUS = t := by simpa using h
        simp
      · obtain rfl : TOKEN.STAR = t := by simpa using h
        simp
      · rcases h1 : parseNT n NT.expr ts.tail with ⟨a, r⟩ | e | _ <;>
          simp only [h1] at h
        · by_cases hcl : current_token r = TOKEN.BCLOSE
          · rw [if_pos hcl] at h
            exact absurd h (by simp)
          · rw [if_neg hcl] at h
            exact absurd h (by simp)
        · obtain rfl : e = PErr.unexpectedToken t := by simpa using h
          exact ih NT.expr ts.tail t h1
        · exact absurd h (by simp)
      · obtain rfl : TOKEN.BCLOSE = t := by simpa using h
        simp
      · obtain rfl : TOKEN.ERROR = t := by simpa using h
        simp
      · obtain rfl : TOKEN.EOF = t := by simpa using h
        simp

/-- C2: `parse_factor` fails with the unexpected-token error on exactly the
current tokens that are not `IDENTIFIER`, `NUMBER` or `BOPEN`; the line `")"`
fails that way, and the whole run aborts with a non-zero exit code. -/
theorem parse_factor_unexpected_token :
    (∀ (fuel : Nat) (ts : List TOKEN), 1 ≤ fuel →
      (parse_factor fuel ts = .err (.unexpectedToken (current_token ts)) ↔
        (∀ s, current_token ts ≠ TOKEN.IDENTIFIER s) ∧
        (∀ s, current_token ts ≠ TOKEN.NUMBER s) ∧
        current_token ts ≠ TOKEN.BOPEN)) ∧
    parse_line (tokenize_the_line ")".data) =
      .err (.unexpectedToken TOKEN.BCLOSE) ∧
    run_lines [")"] = .error (.err (.unexpectedToken TOKEN.BCLOSE)) ∧
    run_exit_code [")"] ≠ 0 := by
  refine ⟨?_, rfl, rfl, by decide⟩
  intro fuel ts hf
  match fuel, hf with
  | n + 1, _ =>
    constructor
    · intro h
      rcases hc : current_token ts with s | s | _ | _ | _ | _ | _ | _
      · simp only [parse_factor, parseNT, hc] at h
        exact absurd h (by simp)
      · simp only [parse_factor, parseNT, hc] at h
        exact absurd h (by simp)
      · exact ⟨fun s => by simp, fun s => by simp, by simp⟩
      · exact ⟨fun s => by simp, fun s => by simp, by simp⟩
      · rw [hc] at h
        rcases parseNT_err_token (n + 1) NT.factor ts TOKEN.BOPEN h with
          h' | h' | h' | h' | h' <;> exact absurd h' (by simp)
      · exact ⟨fun s => by simp, fun s => by simp, by simp⟩
      · exact ⟨fun s => by simp, fun s => by simp, by simp⟩
      · exact ⟨fun s => by simp, fun s => by simp, by simp⟩
    · rintro ⟨hI, hN, hB⟩
      rcases hc : current_token ts with s | s | _ | _ | _ | _ | _ | _
      · exact absurd hc (hI s)
      · exact absurd hc (hN s)
      · simp [parse_factor, parseNT, hc]
      · simp [parse_factor, parseNT, hc]
      · exact absurd hc hB
      · simp [parse_factor, parseNT, hc]
      · simp [parse_factor, parseNT, hc]
      · simp [parse_factor, parseNT, hc]

theorem parse_factor_unexpected_token_witness :
    1 ≤ 1 ∧
    (parse_factor 1 [TOKEN.PLUS] =
        .err (.unexpectedToken (current_token [TOKEN.PLUS])) ↔
      (∀ s, current_token [TOKEN.PLUS] ≠ TOKEN.IDENTIFIER s) ∧
      (∀ s, current_token [TOKEN.PLUS] ≠ TOKEN.NUMBER s) ∧
      current_token [TOKEN.PLUS] ≠ TOKEN.BOPEN) :=
  ⟨by decide, parse_factor_unexpected_token.1 1 [TOKEN.PLUS] (by decide)⟩

/-- C3: after `parse_factor` consumes an `(` and the inner EXPR parses, a
current `)` is consumed and yields the three-child FACTOR node, while any
other current token is the missing-closing-parenthesis failure; the line
`"(1+2"` fails with exactly that error. -/
theorem parse_factor_paren :
    (∀ (fuel : Nat) (rest : List TOKEN) (nd : NODE) (r : List TOKEN),
      parse_expr fuel rest = .ok nd r →
      parse_factor (fuel + 1) (TOKEN.BOPEN :: rest) =
        if current_token r = TOKEN.BCLOSE then
          .ok (NODE.node "FACTOR"
            [NODE.node "BOPEN" [], nd, NODE.node "BCLOSE" []]) r.tail
        else .err PErr.missingClose) ∧
    parse_line (tokenize_the_line "(1+2".data) = .err PErr.missingClose := by
  constructor
  · intro fuel rest nd r h
    have h' : parseNT fuel NT.expr rest = .ok nd r := h
    have hcur : current_token (TOKEN.BOPEN :: rest) = TOKEN.BOPEN := rfl
    by_cases hcl : current_token r = TOKEN.BCLOSE
    · rw [if_pos hcl]
      simp [parse_factor, parseNT, hcur, h', hcl]
    · rw [if_neg hcl]
      simp [parse_factor, parseNT, hcur, h', hcl]
  · rfl

theorem parse_factor_paren_witness :
    parse_expr 9 [TOKEN.NUMBER "1", TOKEN.EOF] =
      .ok (NODE.node "EXPR"
        [NODE.node "TERM"
          [NODE.node "FACTOR" [NODE.node "NUMBER(1)" []],
           NODE.node "TERMDASH" [NODE.node "EPSILON" []]],
         NODE.node "EXPRDASH" [NODE.node "EPSILON" []]]) [TOKEN.EOF] ∧
    parse_factor 10 (TOKEN.BOPEN :: [TOKEN.NUMBER "1", TOKEN.EOF]) =
      if current_token [TOKEN.EOF] = TOKEN.BCLOSE then
        .ok (NODE.node "FACTOR"
          [NODE.node "BOPEN" [],
           NODE.node "EXPR"
            [NODE.node "TERM"
              [NODE.node "FACTOR" [NODE.node "NUMBER(1)" []],
               NODE.node "TERMDASH" [NODE.node "EPSILON" []]],
             NODE.node "EXPRDASH" [NODE.node "EPSILON" []]],
           NODE.node "BCLOSE" []]) ([TOKEN.EOF]).tail
      else .err PErr.missingClose :=
  ⟨rfl, parse_factor_paren.1 9 [TOKEN.NUMBER "1", TOKEN.EOF]
    (NODE.node "EXPR"
      [NODE.node "TERM"
        [NODE.node "FACTOR" [NODE.node "NUMBER(1)" []],
         NODE.node "TERMDASH" [NODE.node "EPSILON" []]],
       NODE.node "EXPRDASH" [NODE.node "EPSILON" []]]) [TOKEN.EOF] rfl⟩

/-- C9: a successful `parse_expr` need not reach the `EOF`: on `"x y"` and
`"x)"` it returns the tree of the leading expression and leaves the extra
tokens unconsumed, and the run reports no error and exits with code 0. -/
theorem trailing_tokens_ignored :
    parse_expr 12 (tokenize_the_line "x y".data) =
      .ok (NODE.node "EXPR"
        [NODE.node "TERM"
          [NODE.node "FACTOR" [NODE.node "IDENTIFIER(x)" []],
           NODE.node "TERMDASH" [NODE.node "EPSILON" []]],
         NODE.node "EXPRDASH" [NODE.node "EPSILON" []]])
        [TOKEN.IDENTIFIER "y", TOKEN.EOF] ∧
    parse_expr 12 (tokenize_the_line "x)".data) =
      .ok (NODE.node "EXPR"
        [NODE.node "TERM"
          [NODE.node "FACTOR" [NODE.node "IDENTIFIER(x)" []],
           NODE.node "TERMDASH" [NODE.node "EPSILON" []]],
         NODE.node "EXPRDASH" [NODE.node "EPSILON" []]])
        [TOKEN.BCLOSE, TOKEN.EOF] ∧
    run_lines ["x y", "x)"] = .ok () ∧
    run_exit_code ["x y", "x)"] = 0 :=
  ⟨rfl, rfl, rfl, rfl⟩

theorem parse_x_plus_y :
    parse_expr 12 (tokenize_the_line "x+y".data) =
      .ok xPlusYTree [TOKEN.EOF] := rfl

theorem leafLabels_x_plus_y :
    leafLabels xPlusYTree =
      ["IDENTIFIER(x)", "EPSILON", "PLUS", "IDENTIFIER(y)", "EPSILON",
       "EPSILON"] := by
  simp [xPlusYTree, leafLabels, forestLeafLabels]

/-- C6 counterexample: the claim's "exactly two EPSILON leaves" fails on the
code: the tree for `"x+y"` has three EPSILON leaves (one per terminated
TERMDASH chain after each operand, plus the final EXPRDASH). -/
theorem bfs_x_plus_y_two_epsilons_false :
    ¬ ∃ nd, parse_expr 12 (tokenize_the_line "x+y".data) =
        .ok nd [TOKEN.EOF] ∧
      bfs_level 0 [nd] = ["EXPR"] ∧
      bfs_level 1 [nd] = ["TERM", "EXPRDASH"] ∧
      bfs_level 2 [nd] = ["FACTOR", "TERMDASH", "PLUS", "TERM", "EXPRDASH"] ∧
      "IDENTIFIER(x)" ∈ leafLabels nd ∧ "IDENTIFIER(y)" ∈ leafLabels nd ∧
      (leafLabels nd).count "EPSILON" = 2 := by
  rintro ⟨nd, hp, -, -, -, -, -, hcount⟩
  rw [parse_x_plus_y] at hp
  obtain rfl : xPlusYTree = nd := by simpa using hp
  rw [leafLabels_x_plus_y] at hcount
  exact absurd hcount (by decide)

/-- C6 (amended): parsing `"x+y"` yields the claimed breadth-first level
label sequences and leaves including `IDENTIFIER(x)` and `IDENTIFIER(y)`,
with exactly three (not two) EPSILON leaves. -/
theorem bfs_levels_x_plus_y :
    ∃ nd, parse_expr 12 (tokenize_the_line "x+y".data) =
        .ok nd [TOKEN.EOF] ∧
      bfs_level 0 [nd] = ["EXPR"] ∧
      bfs_level 1 [nd] = ["TERM", "EXPRDASH"] ∧
      bfs_level 2 [nd] = ["FACTOR", "TERMDASH", "PLUS", "TERM", "EXPRDASH"] ∧
      "IDENTIFIER(x)" ∈ leafLabels nd ∧ "IDENTIFIER(y)" ∈ leafLabels nd ∧
      (leafLabels nd).count "EPSILON" = 3 := by
  refine ⟨xPlusYTree, parse_x_plus_y, rfl, rfl, rfl, ?_, ?_, ?_⟩ <;>
    rw [leafLabels_x_plus_y]
  · decide
  · decide
  · decide

/-- The ASCII fragment satisfies every `AlphaLike` clause (as does Rust's
full `char::is_alphabetic`, of which these clauses are true facts). -/
theorem alphaLike_isAlphabeticRust : AlphaLike isAlphabeticRust := by
  refine ⟨?_, ?_, by decide, by decide, by decide, by decide, by decide,
    fun c h => h⟩
  · intro c h
    simp only [isWhitespaceRust, decide_eq_true_eq] at h
    simp only [List.mem_cons, List.not_mem_nil, or_false] at h
    simp only [isAlphabeticRust, decide_eq_false_iff_not]
    omega
  · intro c h
    simp only [isAsciiDigitRust, decide_eq_true_eq] at h
    simp only [isAlphabeticRust, decide_eq_false_iff_not]
    omega

theorem takeWhile_congr {p q : Char → Bool} :
    ∀ (l : List Char), (∀ c ∈ l, p c = q c) →
      l.takeWhile p = l.takeWhile q ∧ l.dropWhile p = l.dropWhile q := by
  intro l
  induction l with
  | nil => intro h; simp
  | cons a tl ih =>
    intro h
    have ha := h a (by simp)
    have htl := ih (fun c hc => h c (by simp [hc]))
    constructor
    · rw [List.takeWhile_cons, List.takeWhile_cons, ha, htl.1]
    · rw [List.dropWhile_cons, List.dropWhile_cons, ha, htl.2]

/-- Two alphabetic classifiers that agree on every character of the line
give the same next token: the scanner only consults the classifier on the
line's own characters. -/
theorem get_next_token_gen_congr {alpha alpha' : Char → Bool}
    (cs : List Char) (h : ∀ c ∈ cs, alpha c = alpha' c) :
    get_next_token_gen alpha cs = get_next_token_gen alpha' cs := by
  have hsub : ∀ c ∈ skip_whitespace cs, c ∈ cs := fun c hc =>
    (List.dropWhile_suffix isWhitespaceRust).sublist.subset hc
  unfold get_next_token_gen
  rcases hs : skip_whitespace cs with _ | ⟨ch, tl⟩
  · rfl
  · have hch : alpha ch = alpha' ch := h ch (hsub ch (by rw [hs]; simp))
    have htl := takeWhile_congr tl
      (fun c hc => h c (hsub c (by rw [hs]; simp [hc])))
    simp only [collect_while, hch, htl.1, htl.2]

theorem get_next_token_gen_rest_subset {alpha : Char → Bool}
    {cs rest : List Char} {t : TOKEN}
    (h : get_next_token_gen alpha cs = some (t, rest)) :
    ∀ c ∈ rest, c ∈ cs := by
  have hsub : ∀ c ∈ skip_whitespace cs, c ∈ cs := fun c hc =>
    (List.dropWhile_suffix isWhitespaceRust).sublist.subset hc
  unfold get_next_token_gen at h
  rcases hs : skip_whitespace cs with _ | ⟨ch, tl⟩ <;> rw [hs] at h
  · simp at h
  · have htl : ∀ c ∈ tl, c ∈ cs := fun c hc => hsub c (by rw [hs]; simp [hc])
    have hdropD : ∀ c ∈ tl.dropWhile isAsciiDigitRust, c ∈ cs := fun c hc =>
      htl c ((List.dropWhile_suffix isAsciiDigitRust).sublist.subset hc)
    have hdropA : ∀ c ∈ tl.dropWhile alpha, c ∈ cs := fun c hc =>
      htl c ((List.dropWhile_suffix alpha).sublist.subset hc)
    simp only [Option.some.injEq] at h
    split at h
    all_goals try split at h
    all_goals try split at h
    all_goals try split at h
    all_goals try split at h
    all_goals try split at h
    all_goals simp only [collect_while, Prod.mk.injEq] at h
    all_goals obtain ⟨-, rfl⟩ := h
    all_goals first
      | exact htl
      | exact hdropD
      | exact hdropA

theorem tokenize_loop_gen_congr {alpha alpha' : Char → Bool} :
    ∀ (fuel : Nat) (cs : List Char), (∀ c ∈ cs, alpha c = alpha' c) →
      tokenize_loop_gen alpha fuel cs = tokenize_loop_gen alpha' fuel cs := by
  intro fuel
  induction fuel with
  | zero => intro cs h; rfl
  | succ n ih =>
    intro cs h
    have hg := get_next_token_gen_congr cs h
    rcases hg1 : get_next_token_gen alpha cs with _ | ⟨tok, rest⟩
    · have hg2 : get_next_token_gen alpha' cs = none := hg.symm.trans hg1
      simp [tokenize_loop_gen, hg1, hg2]
    · have hg2 : get_next_token_gen alpha' cs = some (tok, rest) :=
        hg.symm.trans hg1
      have hrest := get_next_token_gen_rest_subset hg1
      simp only [tokenize_loop_gen, hg1, hg2]
      rw [ih rest (fun c hc => h c (hrest c hc))]

/-- Two alphabetic classifiers that agree on every character of the line
tokenize the line identically.  In particular, on an all-ASCII line the
scanner with Rust's real `char::is_alphabetic` and the scanner with its
ASCII fragment produce the same tokens. -/
theorem tokenize_the_line_gen_congr {alpha alpha' : Char → Bool}
    (cs : List Char) (h : ∀ c ∈ cs, alpha c = alpha' c) :
    tokenize_the_line_gen alpha cs = tokenize_the_line_gen alpha' cs := by
  unfold tokenize_the_line_gen
  rw [tokenize_loop_gen_congr (cs.length + 1) cs h]

/-- C5: for every alphabetic classifier with the properties of Rust's
`char::is_alphabetic` (`AlphaLike` — so in particular for the program's real
classifier), `get_next_token` classifies the first character after
whitespace skipping: the four one-character symbol tokens; a greedy maximal
digit run kept as text for `NUMBER`; a greedy maximal alphabetic run for
`IDENTIFIER`, which no ASCII digit and no underscore continues; any other
character one `ERROR` token that retains nothing; and `"ab12 + (c*3)"`
tokenizes to the claimed sequence. -/
theorem next_token_classification :
    ∀ (alpha : Char → Bool), AlphaLike alpha →
      (∀ (c : Char) (rest : List Char), isWhitespaceRust c = false →
        (c = '+' →
          get_next_token_gen alpha (c :: rest) = some (TOKEN.PLUS, rest)) ∧
        (c = '*' →
          get_next_token_gen alpha (c :: rest) = some (TOKEN.STAR, rest)) ∧
        (c = '(' →
          get_next_token_gen alpha (c :: rest) = some (TOKEN.BOPEN, rest)) ∧
        (c = ')' →
          get_next_token_gen alpha (c :: rest) = some (TOKEN.BCLOSE, rest)) ∧
        (isAsciiDigitRust c = true →
          get_next_token_gen alpha (c :: rest) =
            some (TOKEN.NUMBER ⟨c :: rest.takeWhile isAsciiDigitRust⟩,
              rest.dropWhile isAsciiDigitRust)) ∧
        (alpha c = true →
          get_next_token_gen alpha (c :: rest) =
            some (TOKEN.IDENTIFIER ⟨c :: rest.takeWhile alpha⟩,
              rest.dropWhile alpha) ∧
          ∀ d ∈ c :: rest.takeWhile alpha,
            isAsciiDigitRust d = false ∧ d ≠ '_') ∧
        (c ≠ '+' → c ≠ '*' → c ≠ '(' → c ≠ ')' →
          isAsciiDigitRust c = false → alpha c = false →
          get_next_token_gen alpha (c :: rest) = some (TOKEN.ERROR, rest))) ∧
      tokenize_the_line_gen alpha "ab12 + (c*3)".data =
        [TOKEN.IDENTIFIER "ab", TOKEN.NUMBER "12", TOKEN.PLUS, TOKEN.BOPEN,
         TOKEN.IDENTIFIER "c", TOKEN.STAR, TOKEN.NUMBER "3", TOKEN.BCLOSE,
         TOKEN.EOF] := by
  intro alpha hA
  obtain ⟨hAws, hAdig, hAplus, hAstar, hAopen, hAclose, hAunder, hAascii⟩ := hA
  constructor
  · intro c rest hws
    have hskip : skip_whitespace (c :: rest) = c :: rest := by
      simp [skip_whitespace, List.dropWhile_cons, hws]
    refine ⟨?_, ?_, ?_, ?_, ?_, ?_, ?_⟩
    · rintro rfl
      simp [get_next_token_gen, hskip]
    · rintro rfl
      simp [get_next_token_gen, hskip]
    · rintro rfl
      simp [get_next_token_gen, hskip]
    · rintro rfl
      simp [get_next_token_gen, hskip]
    · intro hd
      have h1 : c ≠ '+' := by rintro rfl; exact absurd hd (by decide)
      have h2 : c ≠ '*' := by rintro rfl; exact absurd hd (by decide)
      have h3 : c ≠ '(' := by rintro rfl; exact absurd hd (by decide)
      have h4 : c ≠ ')' := by rintro rfl; exact absurd hd (by decide)
      simp [get_next_token_gen, hskip, h1, h2, h3, h4, hd, collect_while]
    · intro ha
      have h1 : c ≠ '+' := by rintro rfl; rw [hAplus] at ha; simp at ha
      have h2 : c ≠ '*' := by rintro rfl; rw [hAstar] at ha; simp at ha
      have h3 : c ≠ '(' := by rintro rfl; rw [hAopen] at ha; simp at ha
      have h4 : c ≠ ')' := by rintro rfl; rw [hAclose] at ha; simp at ha
      have h5 : isAsciiDigitRust c = false := by
        cases hdc : isAsciiDigitRust c
        · rfl
        · rw [hAdig c hdc] at ha; simp at ha
      constructor
      · simp [get_next_token_gen, hskip, h1, h2, h3, h4, h5, ha,
          collect_while]
      · intro d hd
        have hda : alpha d = true := by
          rcases List.mem_cons.mp hd with rfl | hd'
          · exact ha
          · exact List.mem_takeWhile_imp hd'
        constructor
        · cases hdd : isAsciiDigitRust d
          · rfl
          · rw [hAdig d hdd] at hda; simp at hda
        · rintro rfl
          rw [hAunder] at hda; simp at hda
    · intro h1 h2 h3 h4 h5 h6
      simp [get_next_token_gen, hskip, h1, h2, h3, h4, h5, h6]
  · have hagree : ∀ ch ∈ "ab12 + (c*3)".data,
        alpha ch = isAlphabeticRust ch := by
      intro ch hch
      have hch' : ch ∈ ['a', 'b', '1', '2', ' ', '+', ' ', '(', 'c', '*',
        '3', ')'] := hch
      simp only [List.mem_cons, List.not_mem_nil, or_false] at hch'
      rcases hch' with rfl | rfl | rfl | rfl | rfl | rfl | rfl | rfl | rfl
        | rfl | rfl | rfl
      · rw [hAascii 'a' (by decide)]; decide
      · rw [hAascii 'b' (by decide)]; decide
      · rw [hAdig '1' (by decide)]; decide
      · rw [hAdig '2' (by decide)]; decide
      · rw [hAws ' ' (by decide)]; decide
      · rw [hAplus]; decide
      · rw [hAws ' ' (by decide)]; decide
      · rw [hAopen]; decide
      · rw [hAascii 'c' (by decide)]; decide
      · rw [hAstar]; decide
      · rw [hAdig '3' (by decide)]; decide
      · rw [hAclose]; decide
    rw [tokenize_the_line_gen_congr "ab12 + (c*3)".data hagree]
    decide

theorem next_token_classification_witness :
    AlphaLike isAlphabeticRust ∧ isWhitespaceRust '+' = false ∧
    (('+' = '+' → get_next_token_gen isAlphabeticRust ['+'] =
        some (TOKEN.PLUS, [])) ∧
     ('+' = '*' → get_next_token_gen isAlphabeticRust ['+'] =
        some (TOKEN.STAR, [])) ∧
     ('+' = '(' → get_next_token_gen isAlphabeticRust ['+'] =
        some (TOKEN.BOPEN, [])) ∧
     ('+' = ')' → get_next_token_gen isAlphabeticRust ['+'] =
        some (TOKEN.BCLOSE, [])) ∧
     (isAsciiDigitRust '+' = true →
       get_next_token_gen isAlphabeticRust ['+'] =
         some (TOKEN.NUMBER
             ⟨'+' :: ([] : List Char).takeWhile isAsciiDigitRust⟩,
           ([] : List Char).dropWhile isAsciiDigitRust)) ∧
     (isAlphabeticRust '+' = true →
       get_next_token_gen isAlphabeticRust ['+'] =
         some (TOKEN.IDENTIFIER
             ⟨'+' :: ([] : List Char).takeWhile isAlphabeticRust⟩,
           ([] : List Char).dropWhile isAlphabeticRust) ∧
       ∀ d ∈ '+' :: ([] : List Char).takeWhile isAlphabeticRust,
         isAsciiDigitRust d = false ∧ d ≠ '_') ∧
     ('+' ≠ '+' → '+' ≠ '*' → '+' ≠ '(' → '+' ≠ ')' →
       isAsciiDigitRust '+' = false → isAlphabeticRust '+' = false →
       get_next_token_gen isAlphabeticRust ['+'] =
         some (TOKEN.ERROR, []))) ∧
    tokenize_the_line_gen isAlphabeticRust "ab12 + (c*3)".data =
      [TOKEN.IDENTIFIER "ab", TOKEN.NUMBER "12", TOKEN.PLUS, TOKEN.BOPEN,
       TOKEN.IDENTIFIER "c", TOKEN.STAR, TOKEN.NUMBER "3", TOKEN.BCLOSE,
       TOKEN.EOF] :=
  ⟨alphaLike_isAlphabeticRust, by decide,
   (next_token_classification isAlphabeticRust
     alphaLike_isAlphabeticRust).1 '+' [] (by decide),
   (next_token_classification isAlphabeticRust
     alphaLike_isAlphabeticRust).2⟩

theorem takeWhile_all_eq {p : Char → Bool} :
    ∀ (l : List Char), (∀ c ∈ l, p c = true) →
      l.takeWhile p = l ∧ l.dropWhile p = [] := by
  intro l
  induction l with
  | nil => intro h; simp
  | cons a tl ih =>
    intro h
    have ha := h a (by simp)
    have htl := ih (fun c hc => h c (by simp [hc]))
    simp [List.takeWhile_cons, List.dropWhile_cons, ha, htl.1, htl.2]

theorem get_next_token_gen_nil (alpha : Char → Bool) :
    get_next_token_gen alpha [] = none := rfl

theorem get_next_token_id_shape {alpha : Char → Bool} {cs rest : List Char}
    {s : String}
    (h : get_next_token_gen alpha cs = some (TOKEN.IDENTIFIER s, rest)) :
    s.data ≠ [] ∧ ∀ c ∈ s.data, alpha c = true := by
  unfold get_next_token_gen at h
  rcases hs : skip_whitespace cs with _ | ⟨ch, tl⟩ <;> rw [hs] at h
  · simp at h
  · simp only [Option.some.injEq] at h
    split at h
    · simp at h
    · split at h
      · simp at h
      · split at h
        · simp at h
        · split at h
          · simp at h
          · split at h
            · simp at h
            · split at h
              · rename_i halpha
                simp only [collect_while, Prod.mk.injEq,
                  TOKEN.IDENTIFIER.injEq] at h
                obtain ⟨rfl, rfl⟩ := h
                constructor
                · show ch :: tl.takeWhile alpha ≠ []
                  simp
                · intro c hc
                  rcases List.mem_cons.mp hc with rfl | hc'
                  · exact halpha
                  · exact List.mem_takeWhile_imp hc'
              · simp at h

theorem get_next_token_num_shape {alpha : Char → Bool} {cs rest : List Char}
    {s : String}
    (h : get_next_token_gen alpha cs = some (TOKEN.NUMBER s, rest)) :
    s.data ≠ [] ∧ ∀ c ∈ s.data, isAsciiDigitRust c = true := by
  unfold get_next_token_gen at h
  rcases hs : skip_whitespace cs with _ | ⟨ch, tl⟩ <;> rw [hs] at h
  · simp at h
  · simp only [Option.some.injEq] at h
    split at h
    · simp at h
    · split at h
      · simp at h
      · split at h
        · simp at h
        · split at h
          · simp at h
          · split at h
            · rename_i hdig
              simp only [collect_while, Prod.mk.injEq,
                TOKEN.NUMBER.injEq] at h
              obtain ⟨rfl, rfl⟩ := h
              constructor
              · show ch :: tl.takeWhile isAsciiDigitRust ≠ []
                simp
              · intro c hc
                rcases List.mem_cons.mp hc with rfl | hc'
                · exact hdig
                · exact List.mem_takeWhile_imp hc'
            · split at h
              · simp at h
              · simp at h

theorem tokenize_loop_text_shape {alpha : Char → Bool} :
    ∀ (fuel : Nat) (cs : List Char) (s : String),
      (TOKEN.IDENTIFIER s ∈ tokenize_loop_gen alpha fuel cs →
        s.data ≠ [] ∧ ∀ c ∈ s.data, alpha c = true) ∧
      (TOKEN.NUMBER s ∈ tokenize_loop_gen alpha fuel cs →
        s.data ≠ [] ∧ ∀ c ∈ s.data, isAsciiDigitRust c = true) := by
  intro fuel
  induction fuel with
  | zero => intro cs s; simp [tokenize_loop_gen]
  | succ n ih =>
    intro cs s
    rcases hg : get_next_token_gen alpha cs with _ | ⟨tok, rest⟩
    · simp [tokenize_loop_gen, hg]
    · simp only [tokenize_loop_gen, hg, List.mem_cons]
      constructor
      · rintro (heq | hmem)
        · rw [← heq] at hg
          exact get_next_token_id_shape hg
        · exact (ih rest s).1 hmem
      · rintro (heq | hmem)
        · rw [← heq] at hg
          exact get_next_token_num_shape hg
        · exact (ih rest s).2 hmem

theorem tokenize_alpha_run {alpha : Char → Bool} (hA : AlphaLike alpha)
    (a : Char) (tl : List Char) (hall : ∀ c ∈ a :: tl, alpha c = true) :
    tokenize_the_line_gen alpha (a :: tl) =
      [TOKEN.IDENTIFIER ⟨a :: tl⟩, TOKEN.EOF] := by
  obtain ⟨hAws, hAdig, hAplus, hAstar, hAopen, hAclose, hAunder, hAascii⟩ := hA
  have ha := hall a (by simp)
  have h1 : a ≠ '+' := by rintro rfl; rw [hAplus] at ha; simp at ha
  have h2 : a ≠ '*' := by rintro rfl; rw [hAstar] at ha; simp at ha
  have h3 : a ≠ '(' := by rintro rfl; rw [hAopen] at ha; simp at ha
  have h4 : a ≠ ')' := by rintro rfl; rw [hAclose] at ha; simp at ha
  have h5 : isAsciiDigitRust a = false := by
    cases hdc : isAsciiDigitRust a
    · rfl
    · rw [hAdig a hdc] at ha; simp at ha
  have hws : isWhitespaceRust a = false := by
    cases hwc : isWhitespaceRust a
    · rfl
    · rw [hAws a hwc] at ha; simp at ha
  have htw := takeWhile_all_eq tl (fun c hc => hall c (by simp [hc]))
  have hskip : skip_whitespace (a :: tl) = a :: tl := by
    simp [skip_whitespace, List.dropWhile_cons, hws]
  have hgnt : get_next_token_gen alpha (a :: tl) =
      some (TOKEN.IDENTIFIER ⟨a :: tl⟩, []) := by
    simp [get_next_token_gen, hskip, h1, h2, h3, h4, h5, ha, collect_while,
      htw.1, htw.2]
  show tokenize_loop_gen alpha ((a :: tl).length + 1) (a :: tl) ++
    [TOKEN.EOF] = _
  simp only [List.length_cons]
  simp [tokenize_loop_gen, hgnt, get_next_token_gen_nil]

theorem tokenize_digit_run {alpha : Char → Bool} (a : Char) (tl : List Char)
    (hall : ∀ c ∈ a :: tl, isAsciiDigitRust c = true) :
    tokenize_the_line_gen alpha (a :: tl) =
      [TOKEN.NUMBER ⟨a :: tl⟩, TOKEN.EOF] := by
  have ha := hall a (by simp)
  have h1 : a ≠ '+' := by rintro rfl; exact absurd ha (by decide)
  have h2 : a ≠ '*' := by rintro rfl; exact absurd ha (by decide)
  have h3 : a ≠ '(' := by rintro rfl; exact absurd ha (by decide)
  have h4 : a ≠ ')' := by rintro rfl; exact absurd ha (by decide)
  have hran : 48 ≤ a.toNat ∧ a.toNat ≤ 57 := by
    simpa [isAsciiDigitRust, decide_eq_true_eq] using ha
  have hws : isWhitespaceRust a = false := by
    simp only [isWhitespaceRust, decide_eq_false_iff_not]
    intro hmem
    simp only [List.mem_cons, List.not_mem_nil, or_false] at hmem
    omega
  have htw := takeWhile_all_eq tl (fun c hc => hall c (by simp [hc]))
  have hskip : skip_whitespace (a :: tl) = a :: tl := by
    simp [skip_whitespace, List.dropWhile_cons, hws]
  have hgnt : get_next_token_gen alpha (a :: tl) =
      some (TOKEN.NUMBER ⟨a :: tl⟩, []) := by
    simp [get_next_token_gen, hskip, h1, h2, h3, h4, ha, collect_while,
      htw.1, htw.2]
  show tokenize_loop_gen alpha ((a :: tl).length + 1) (a :: tl) ++
    [TOKEN.EOF] = _
  simp only [List.length_cons]
  simp [tokenize_loop_gen, hgnt, get_next_token_gen_nil]

/-- C8: for every alphabetic classifier with the properties of Rust's
`char::is_alphabetic` (so in particular for the program's real classifier)
and every `IDENTIFIER`/`NUMBER` token its scanner produces, the leaf label
`parse_factor` builds for the token wraps the token's text, reading that
label back (wrapper stripped) recovers the token, and re-tokenizing the
embedded text yields the single original token byte-for-byte (before the
`EOF`). -/
theorem leaf_text_retokenizes :
    ∀ (alpha : Char → Bool), AlphaLike alpha →
      ∀ (cs : List Char) (s : String),
        (TOKEN.IDENTIFIER s ∈ tokenize_the_line_gen alpha cs →
          (∀ (fuel : Nat) (ts : List TOKEN),
            current_token ts = TOKEN.IDENTIFIER s →
            parse_factor (fuel + 1) ts =
              .ok (NODE.node "FACTOR"
                [NODE.node ("IDENTIFIER(" ++ s ++ ")") []]) ts.tail) ∧
          labelToToken ("IDENTIFIER(" ++ s ++ ")") =
            some (TOKEN.IDENTIFIER s) ∧
          tokenize_the_line_gen alpha s.data =
            [TOKEN.IDENTIFIER s, TOKEN.EOF]) ∧
        (TOKEN.NUMBER s ∈ tokenize_the_line_gen alpha cs →
          (∀ (fuel : Nat) (ts : List TOKEN),
            current_token ts = TOKEN.NUMBER s →
            parse_factor (fuel + 1) ts =
              .ok (NODE.node "FACTOR"
                [NODE.node ("NUMBER(" ++ s ++ ")") []]) ts.tail) ∧
          labelToToken ("NUMBER(" ++ s ++ ")") = some (TOKEN.NUMBER s) ∧
          tokenize_the_line_gen alpha s.data =
            [TOKEN.NUMBER s, TOKEN.EOF]) := by
  intro alpha hA cs s
  constructor
  · intro hmem
    have hloop : TOKEN.IDENTIFIER s ∈
        tokenize_loop_gen alpha (cs.length + 1) cs := by
      rcases List.mem_append.mp hmem with h | h
      · exact h
      · simp at h
    have hshape := (tokenize_loop_text_shape (cs.length + 1) cs s).1 hloop
    refine ⟨?_, labelToToken_id s, ?_⟩
    · intro fuel ts hcur
      simp [parse_factor, parseNT, hcur]
    · obtain ⟨a, tl, hdata⟩ := List.exists_cons_of_ne_nil hshape.1
      rw [hdata, tokenize_alpha_run hA a tl (hdata ▸ hshape.2), ← hdata]
  · intro hmem
    have hloop : TOKEN.NUMBER s ∈
        tokenize_loop_gen alpha (cs.length + 1) cs := by
      rcases List.mem_append.mp hmem with h | h
      · exact h
      · simp at h
    have hshape := (tokenize_loop_text_shape (cs.length + 1) cs s).2 hloop
    refine ⟨?_, labelToToken_num s, ?_⟩
    · intro fuel ts hcur
      simp [parse_factor, parseNT, hcur]
    · obtain ⟨a, tl, hdata⟩ := List.exists_cons_of_ne_nil hshape.1
      rw [hdata, tokenize_digit_run a tl (hdata ▸ hshape.2), ← hdata]

theorem leaf_text_retokenizes_witness :
    AlphaLike isAlphabeticRust ∧
    TOKEN.IDENTIFIER "x" ∈ tokenize_the_line_gen isAlphabeticRust "x".data ∧
    current_token [TOKEN.IDENTIFIER "x", TOKEN.EOF] = TOKEN.IDENTIFIER "x" ∧
    parse_factor 1 [TOKEN.IDENTIFIER "x", TOKEN.EOF] =
      .ok (NODE.node "FACTOR"
        [NODE.node ("IDENTIFIER(" ++ "x" ++ ")") []])
        ([TOKEN.IDENTIFIER "x", TOKEN.EOF]).tail ∧
    labelToToken ("IDENTIFIER(" ++ "x" ++ ")") = some (TOKEN.IDENTIFIER "x") ∧
    tokenize_the_line_gen isAlphabeticRust ("x" : String).data =
      [TOKEN.IDENTIFIER "x", TOKEN.EOF] :=
  ⟨alphaLike_isAlphabeticRust, by decide, rfl,
   ((leaf_text_retokenizes isAlphabeticRust alphaLike_isAlphabeticRust
     "x".data "x").1 (by decide)).1 0 [TOKEN.IDENTIFIER "x", TOKEN.EOF] rfl,
   ((leaf_text_retokenizes isAlphabeticRust alphaLike_isAlphabeticRust
     "x".data "x").1 (by decide)).2.1,
   ((leaf_text_retokenizes isAlphabeticRust alphaLike_isAlphabeticRust
     "x".data "x").1 (by decide)).2.2⟩

theorem ShapeOK_node (l : String) (cs : List NODE) :
    ShapeOK (NODE.node l cs) ↔ ShapeRoot (NODE.node l cs) ∧ ForestShape cs := by
  simp [ShapeOK, ForestShape]

theorem ForestShape_cons (x : NODE) (xs : List NODE) :
    ForestShape (x :: xs) ↔ ShapeOK x ∧ ForestShape xs := by
  cases x with
  | node l cs =>
    simp [ShapeOK, ForestShape]
    tauto

/-- Any leaf whose label is none of the five structural non-terminal labels
satisfies the shape invariant. -/
theorem ShapeOK_leaf_of_ne (l : String) (h1 : l ≠ "EXPR") (h2 : l ≠ "TERM")
    (h3 : l ≠ "EXPRDASH") (h4 : l ≠ "TERMDASH") (h5 : l ≠ "FACTOR") :
    ShapeOK (NODE.node l []) := by
  refine (ShapeOK_node l []).mpr
    ⟨⟨?_, ?_, ?_, ?_, fun _ => rfl⟩, by simp [ForestShape]⟩
  · rintro (rfl | rfl)
    · exact absurd rfl h1
    · exact absurd rfl h2
  · intro hL
    exact absurd hL h3
  · intro hL
    exact absurd hL h4
  · intro hL
    exact absurd hL h5

theorem idLabel_ne_keyword (s l : String) (hl : l.data.head? ≠ some 'I') :
    ("IDENTIFIER(" ++ s ++ ")") ≠ l := by
  intro h
  apply hl
  rw [← h]
  rfl

theorem numLabel_ne_keyword (s l : String) (hl : l.data.head? ≠ some 'N') :
    ("NUMBER(" ++ s ++ ")") ≠ l := by
  intro h
  apply hl
  rw [← h]
  rfl

theorem ShapeOK_id_leaf (s : String) :
    ShapeOK (NODE.node ("IDENTIFIER(" ++ s ++ ")") []) :=
  ShapeOK_leaf_of_ne _ (idLabel_ne_keyword s _ (by decide))
    (idLabel_ne_keyword s _ (by decide)) (idLabel_ne_keyword s _ (by decide))
    (idLabel_ne_keyword s _ (by decide)) (idLabel_ne_keyword s _ (by decide))

theorem ShapeOK_num_leaf (s : String) :
    ShapeOK (NODE.node ("NUMBER(" ++ s ++ ")") []) :=
  ShapeOK_leaf_of_ne _ (numLabel_ne_keyword s _ (by decide))
    (numLabel_ne_keyword s _ (by decide)) (numLabel_ne_keyword s _ (by decide))
    (numLabel_ne_keyword s _ (by decide)) (numLabel_ne_keyword s _ (by decide))

/-- Every tree a parse function returns satisfies the local shape invariant
at every node, and its root is labelled with the function's non-terminal. -/
theorem parseNT_shape :
    ∀ (fuel : Nat) (nt : NT) (ts : List TOKEN) (nd : NODE) (r : List TOKEN),
      parseNT fuel nt ts = .ok nd r → ShapeOK nd ∧ nd.label = ntLabel nt := by
  intro fuel
  induction fuel with
  | zero => intro nt ts nd r h; simp [parseNT] at h
  | succ n ih =>
    intro nt ts nd r h
    cases nt with
    | expr =>
      simp only [parseNT] at h
      rcases h1 : parseNT n NT.term ts with ⟨t, ts₁⟩ | e | _ <;>
        simp only [h1] at h
      · rcases h2 : parseNT n NT.exprdash ts₁ with ⟨d, ts₂⟩ | e | _ <;>
          simp only [h2] at h
        · simp only [PResult.ok.injEq] at h
          obtain ⟨rfl, rfl⟩ := h
          have ht := ih NT.term ts t ts₁ h1
          have hd := ih NT.exprdash ts₁ d ts₂ h2
          refine ⟨(ShapeOK_node _ _).mpr
            ⟨⟨fun _ => rfl, ?_, ?_, ?_, ?_⟩, ?_⟩, rfl⟩
          · intro hL; exact absurd hL (by decide)
          · intro hL; exact absurd hL (by decide)
          · intro hL; exact absurd hL (by decide)
          · intro hL; exact absurd hL (by decide)
          · rw [ForestShape_cons, ForestShape_cons]
            exact ⟨ht.1, hd.1, by simp [ForestShape]⟩
        · exact absurd h (by simp)
        · exact absurd h (by simp)
      · exact absurd h (by simp)
      · exact absurd h (by simp)
    | exprdash =>
      simp only [parseNT] at h
      by_cases hc : current_token ts = TOKEN.PLUS
      · rw [if_pos hc] at h
        rcases h1 : parseNT n NT.term ts.tail with ⟨rhs, ts₁⟩ | e | _ <;>
          simp only [h1] at h
        · rcases h2 : parseNT n NT.exprdash ts₁ with ⟨more, ts₂⟩ | e | _ <;>
            simp only [h2] at h
          · simp only [PResult.ok.injEq] at h
            obtain ⟨rfl, rfl⟩ := h
            have hr := ih NT.term ts.tail rhs ts₁ h1
            have hm := ih NT.exprdash ts₁ more ts₂ h2
            refine ⟨(ShapeOK_node _ _).mpr ⟨⟨?_, ?_, ?_, ?_, ?_⟩, ?_⟩, rfl⟩
            · rintro (hL | hL) <;> exact absurd hL (by decide)
            · intro _
              exact Or.inr ⟨NODE.node "PLUS" [], rhs, more, rfl, rfl, hm.2⟩
            · intro hL; exact absurd hL (by decide)
            · intro hL; exact absurd hL (by decide)
            · intro hL; exact absurd hL (by decide)
            · rw [ForestShape_cons, ForestShape_cons, ForestShape_cons]
              exact ⟨ShapeOK_leaf_of_ne "PLUS" (by decide) (by decide)
                  (by decide) (by decide) (by decide), hr.1, hm.1,
                by simp [ForestShape]⟩
          · exact absurd h (by simp)
          · exact absurd h (by simp)
        · exact absurd h (by simp)
        · exact absurd h (by simp)
      · rw [if_neg hc] at h
        simp only [PResult.ok.injEq] at h
        obtain ⟨rfl, rfl⟩ := h
        refine ⟨(ShapeOK_node _ _).mpr ⟨⟨?_, ?_, ?_, ?_, ?_⟩, ?_⟩, rfl⟩
        · rintro (hL | hL) <;> exact absurd hL (by decide)
        · intro _
          exact Or.inl ⟨NODE.node "EPSILON" [], rfl, rfl⟩
        · intro hL; exact absurd hL (by decide)
        · intro hL; exact absurd hL (by decide)
        · intro hL; exact absurd hL (by decide)
        · rw [ForestShape_cons]
          exact ⟨ShapeOK_leaf_of_ne "EPSILON" (by decide) (by decide)
            (by decide) (by decide) (by decide), by simp [ForestShape]⟩
    | term =>
      simp only [parseNT] at h
      rcases h1 : parseNT n NT.factor ts with ⟨f, ts₁⟩ | e | _ <;>
        simp only [h1] at h
      · rcases h2 : parseNT n NT.termdash ts₁ with ⟨d, ts₂⟩ | e | _ <;>
          simp only [h2] at h
        · simp only [PResult.ok.injEq] at h
          obtain ⟨rfl, rfl⟩ := h
          have hf := ih NT.factor ts f ts₁ h1
          have hd := ih NT.termdash ts₁ d ts₂ h2
          refine ⟨(ShapeOK_node _ _).mpr
            ⟨⟨fun _ => rfl, ?_, ?_, ?_, ?_⟩, ?_⟩, rfl⟩
          · intro hL; exact absurd hL (by decide)
          · intro hL; exact absurd hL (by decide)
          · intro hL; exact absurd hL (by decide)
          · intro hL; exact absurd hL (by decide)
          · rw [ForestShape_cons, ForestShape_cons]
            exact ⟨hf.1, hd.1, by simp [ForestShape]⟩
        · exact absurd h (by simp)
        · exact absurd h (by simp)
      · exact absurd h (by simp)
      · exact absurd h (by simp)
    | termdash =>
      simp only [parseNT] at h
      by_cases hc : current_token ts = TOKEN.STAR
      · rw [if_pos hc] at h
        rcases h1 : parseNT n NT.factor ts.tail with ⟨f, ts₁⟩ | e | _ <;>
          simp only [h1] at h
        · rcases h2 : parseNT n NT.termdash ts₁ with ⟨more, ts₂⟩ | e | _ <;>
            simp only [h2] at h
          · simp only [PResult.ok.injEq] at h
            obtain ⟨rfl, rfl⟩ := h
            have hf := ih NT.factor ts.tail f ts₁ h1
            have hm := ih NT.termdash ts₁ more ts₂ h2
            refine ⟨(ShapeOK_node _ _).mpr ⟨⟨?_, ?_, ?_, ?_, ?_⟩, ?_⟩, rfl⟩
            · rintro (hL | hL) <;> exact absurd hL (by decide)
            · intro hL; exact absurd hL (by decide)
            · intro _
              exact Or.inr ⟨NODE.node "STAR" [], f, more, rfl, rfl, hm.2⟩
            · intro hL; exact absurd hL (by decide)
            · intro hL; exact absurd hL (by decide)
            · rw [ForestShape_cons, ForestShape_cons, ForestShape_cons]
              exact ⟨ShapeOK_leaf_of_ne "STAR" (by decide) (by decide)
                  (by decide) (by decide) (by decide), hf.1, hm.1,
                by simp [ForestShape]⟩
          · exact absurd h (by simp)
          · exact absurd h (by simp)
        · exact absurd h (by simp)
        · exact absurd h (by simp)
      · rw [if_neg hc] at h
        simp only [PResult.ok.injEq] at h
        obtain ⟨rfl, rfl⟩ := h
        refine ⟨(ShapeOK_node _ _).mpr ⟨⟨?_, ?_, ?_, ?_, ?_⟩, ?_⟩, rfl⟩
        · rintro (hL | hL) <;> exact absurd hL (by decide)
        · intro hL; exact absurd hL (by decide)
        · intro _
          exact Or.inl ⟨NODE.node "EPSILON" [], rfl, rfl⟩
        · intro hL; exact absurd hL (by decide)
        · intro hL; exact absurd hL (by decide)
        · rw [ForestShape_cons]
          exact ⟨ShapeOK_leaf_of_ne "EPSILON" (by decide) (by decide)
            (by decide) (by decide) (by decide), by simp [ForestShape]⟩
    | factor =>
      simp only [parseNT] at h
      rcases hc : current_token ts with s | s | _ | _ | _ | _ | _ | _ <;>
        simp only [hc] at h
      · simp only [PResult.ok.injEq] at h
        obtain ⟨rfl, rfl⟩ := h
        refine ⟨(ShapeOK_node _ _).mpr ⟨⟨?_, ?_, ?_, ?_, ?_⟩, ?_⟩, rfl⟩
        · rintro (hL | hL) <;> exact absurd hL (by decide)
        · intro hL; exact absurd hL (by decide)
        · intro hL; exact absurd hL (by decide)
        · intro _
          refine Or.inl ⟨NODE.node ("IDENTIFIER(" ++ s ++ ")") [], rfl, ?_⟩
          show isWrappedLeafLabel ("IDENTIFIER(" ++ s ++ ")") = true
          simp [isWrappedLeafLabel, labelToToken_id]
        · intro hL; exact absurd hL (by decide)
        · rw [ForestShape_cons]
          exact ⟨ShapeOK_id_leaf s, by simp [ForestShape]⟩
      · simp only [PResult.ok.injEq] at h
        obtain ⟨rfl, rfl⟩ := h
        refine ⟨(ShapeOK_node _ _).mpr ⟨⟨?_, ?_, ?_, ?_, ?_⟩, ?_⟩, rfl⟩
        · rintro (hL | hL) <;> exact absurd hL (by decide)
        · intro hL; exact absurd hL (by decide)
        · intro hL; exact absurd hL (by decide)
        · intro _
          refine Or.inl ⟨NODE.node ("NUMBER(" ++ s ++ ")") [], rfl, ?_⟩
          show isWrappedLeafLabel ("NUMBER(" ++ s ++ ")") = true
          simp [isWrappedLeafLabel, labelToToken_num]
        · intro hL; exact absurd hL (by decide)
        · rw [ForestShape_cons]
          exact ⟨ShapeOK_num_leaf s, by simp [ForestShape]⟩
      · exact absurd h (by simp)
      · exact absurd h (by simp)
      · rcases h1 : parseNT n NT.expr ts.tail with ⟨inside, ts₁⟩ | e | _ <;>
          simp only [h1] at h
        · by_cases hcl : current_token ts₁ = TOKEN.BCLOSE
          · rw [if_pos hcl] at h
            simp only [PResult.ok.injEq] at h
            obtain ⟨rfl, rfl⟩ := h
            have hi := ih NT.expr ts.tail inside ts₁ h1
            refine ⟨(ShapeOK_node _ _).mpr ⟨⟨?_, ?_, ?_, ?_, ?_⟩, ?_⟩, rfl⟩
            · rintro (hL | hL) <;> exact absurd hL (by decide)
            · intro hL; exact absurd hL (by decide)
            · intro hL; exact absurd hL (by decide)
            · intro _
              exact Or.inr ⟨NODE.node "BOPEN" [], inside,
                NODE.node "BCLOSE" [], rfl, rfl, hi.2, rfl⟩
            · intro hL; exact absurd hL (by decide)
            · rw [ForestShape_cons, ForestShape_cons, ForestShape_cons]
              exact ⟨ShapeOK_leaf_of_ne "BOPEN" (by decide) (by decide)
                  (by decide) (by decide) (by decide), hi.1,
                ShapeOK_leaf_of_ne "BCLOSE" (by decide) (by decide)
                  (by decide) (by decide) (by decide),
                by simp [ForestShape]⟩
          · rw [if_neg hcl] at h
            exact absurd h (by simp)
        · exact absurd h (by simp)
        · exact absurd h (by simp)
      · exact absurd h (by simp)
      · exact absurd h (by simp)
      · exact absurd h (by simp)

/-- C10: every tree a successful `parse_expr` returns satisfies the shape
invariant: EXPR/TERM nodes have two children; EXPRDASH/TERMDASH nodes have an
operator leaf, subtree and continuation, or a single EPSILON child; FACTOR
nodes wrap one `IDENTIFIER(...)`/`NUMBER(...)` leaf or a parenthesised EXPR;
and every terminal-labelled node is a leaf. -/
theorem parse_tree_shape (fuel : Nat) (ts : List TOKEN) (nd : NODE)
    (r : List TOKEN) (h : parse_expr fuel ts = .ok nd r) : ShapeOK nd :=
  (parseNT_shape fuel NT.expr ts nd r h).1

theorem parse_tree_shape_witness :
    parse_expr 9 [TOKEN.IDENTIFIER "x", TOKEN.EOF] =
      .ok (NODE.node "EXPR"
        [NODE.node "TERM"
          [NODE.node "FACTOR" [NODE.node "IDENTIFIER(x)" []],
           NODE.node "TERMDASH" [NODE.node "EPSILON" []]],
         NODE.node "EXPRDASH" [NODE.node "EPSILON" []]]) [TOKEN.EOF] ∧
    ShapeOK (NODE.node "EXPR"
      [NODE.node "TERM"
        [NODE.node "FACTOR" [NODE.node "IDENTIFIER(x)" []],
         NODE.node "TERMDASH" [NODE.node "EPSILON" []]],
       NODE.node "EXPRDASH" [NODE.node "EPSILON" []]]) :=
  ⟨rfl, parse_tree_shape 9 [TOKEN.IDENTIFIER "x", TOKEN.EOF] _ [TOKEN.EOF] rfl⟩
